import Mathlib

/-!
# random_initialpose : the `InitialPosePublisher` node

A shallow embedding of `src/random_initialpose.cpp` (the active, non-commented
class) and the properties of its callbacks.

Modelling conventions.

* A `double` is a value of IEEE 754 binary64 (`Double`): a finite rational, the
  negative zero, an infinity or NaN.  `+`, `-`, `/` and the conversions from
  integers and from decimal literals compute the exact rational result and round
  it to the nearest value of binary64, a tie going to the even significand, with
  gradual underflow and overflow to infinity; `≤` is the comparison of IEEE 754,
  false as soon as one side is NaN.  A `float` is carried in the same type (every
  value of binary32 is a value of binary64); the node only stores and logs it.
* The node's member variables are the first five fields of `NodeState`, under the
  names the source gives them.  What the node does to the outside world is
  recorded in the remaining fields: the messages handed to `publisher_->publish`,
  the number of `rclcpp::shutdown()` calls, the `RCLCPP_INFO` lines, and how many
  times `std::rand()` and `this->now()` have been called.
* `std::rand()`, `RAND_MAX` and `this->now()` belong to the C library and to the
  middleware.  They are taken as an environment `Env`: the n-th call of
  `std::rand()` returns `env.rand n`, the n-th call of `this->now()` returns
  `env.now n`.
* `rclcpp::shutdown()` is recorded as a request; the callbacks are modelled as the
  source writes them, one invocation per delivered input.
* `std::vector::operator[]` outside the vector is a `Fault`.
-/

namespace RandomInitialPose

/-! ## Binary64 arithmetic -/

/-- Rounding of a rational to the nearest integer, a tie going to the even one. -/
def round_half_even (q : ℚ) : ℤ :=
  if q - ⌊q⌋ < 1 / 2 then ⌊q⌋
  else if 1 / 2 < q - ⌊q⌋ then ⌊q⌋ + 1
  else if ⌊q⌋ % 2 = 0 then ⌊q⌋
  else ⌊q⌋ + 1

/-- Rounding of a positive rational `a` to the nearest multiple of the unit in the
last place of its binade: with `e` the exponent of `a`, not below the least normal
exponent -1022, the unit is `2 ^ (e - 52)` (53-bit significand). -/
def round_magnitude (a : ℚ) : ℚ :=
  (round_half_even (a / 2 ^ (max (Int.log 2 a) (-1022) - 52)) : ℚ) *
    2 ^ (max (Int.log 2 a) (-1022) - 52)

/-- A value of IEEE 754 binary64.  `finite 0` is the positive zero. -/
inductive Double where
  | finite (q : ℚ)
  | neg_zero
  | pos_inf
  | neg_inf
  | nan
deriving DecidableEq

/-- A `float`, carried as the binary64 value it equals. -/
abbrev Float32 := Double

namespace Double

/-- The rational a finite value stands for; 0 for the zeros (and, by convention,
for the infinities and NaN, where it is not used). -/
def value : Double → ℚ
  | finite q => q
  | _ => 0

/-- The sign bit. -/
def signbit : Double → Bool
  | finite q => decide (q < 0)
  | neg_zero => true
  | pos_inf => false
  | neg_inf => true
  | nan => false

/-- Whether the value is an infinity. -/
def is_inf : Double → Bool
  | pos_inf => true
  | neg_inf => true
  | _ => false

/-- The zero of the given sign. -/
def signed_zero (negative : Bool) : Double := if negative then neg_zero else finite 0

/-- The infinity of the given sign. -/
def signed_inf (negative : Bool) : Double := if negative then neg_inf else pos_inf

/-- Rounding of an exact result to binary64, to nearest, ties to even: overflow
(a rounded magnitude of 2^1024 or more) gives the infinity of the sign, a nonzero
result that rounds to zero keeps its sign, an exact zero is the positive zero. -/
def round_nearest (q : ℚ) : Double :=
  if q = 0 then finite 0
  else if (2 : ℚ) ^ (1024 : ℕ) ≤ round_magnitude |q| then signed_inf (decide (q < 0))
  else if round_magnitude |q| = 0 then signed_zero (decide (q < 0))
  else finite (if q < 0 then -round_magnitude |q| else round_magnitude |q|)

/-- Unary minus: flips the sign, of the zeros too. -/
def neg : Double → Double
  | finite q => if q = 0 then neg_zero else finite (-q)
  | neg_zero => finite 0
  | pos_inf => neg_inf
  | neg_inf => pos_inf
  | nan => nan

/-- Addition: NaN propagates, opposite infinities give NaN, an infinity absorbs a
finite operand, two negative zeros give the negative zero, and otherwise the exact
sum is rounded. -/
def add : Double → Double → Double
  | nan, _ => nan
  | _, nan => nan
  | pos_inf, neg_inf => nan
  | neg_inf, pos_inf => nan
  | pos_inf, _ => pos_inf
  | _, pos_inf => pos_inf
  | neg_inf, _ => neg_inf
  | _, neg_inf => neg_inf
  | neg_zero, neg_zero => neg_zero
  | a, b => round_nearest (a.value + b.value)

/-- Subtraction: addition of the negated operand. -/
def sub (a b : Double) : Double := add a (neg b)

/-- Division: NaN propagates, infinity by infinity and zero by zero give NaN, a
division by zero gives an infinity, a division by an infinity gives a zero, both of
the sign of the quotient, and otherwise the exact quotient is rounded. -/
def div (a b : Double) : Double :=
  if a = nan ∨ b = nan then nan
  else if a.is_inf ∧ b.is_inf then nan
  else if a.is_inf then signed_inf (xor a.signbit b.signbit)
  else if b.is_inf then signed_zero (xor a.signbit b.signbit)
  else if b.value = 0 then
    (if a.value = 0 then nan else signed_inf (xor a.signbit b.signbit))
  else if a.value = 0 then signed_zero (xor a.signbit b.signbit)
  else round_nearest (a.value / b.value)

/-- The comparison `<=`: false when a side is NaN; the two zeros are equal. -/
def le : Double → Double → Bool
  | nan, _ => false
  | _, nan => false
  | neg_inf, _ => true
  | _, pos_inf => true
  | pos_inf, _ => false
  | _, neg_inf => false
  | a, b => decide (a.value ≤ b.value)

/-- Conversion of a non-negative `int` to `double`. -/
def of_nat (n : ℕ) : Double := round_nearest n

instance : Add Double := ⟨add⟩

instance : Sub Double := ⟨sub⟩

instance : Neg Double := ⟨neg⟩

instance : Div Double := ⟨div⟩

instance : LE Double := ⟨fun a b => le a b = true⟩

instance (a b : Double) : Decidable (a ≤ b) := inferInstanceAs (Decidable (le a b = true))

/-- A literal such as `2.0`, written `2`: the nearest value of binary64. -/
instance (n : ℕ) : OfNat Double n := ⟨round_nearest n⟩

/-- A decimal literal such as `0.25`: the nearest value of binary64. -/
instance : OfScientific Double :=
  ⟨fun m s e => round_nearest (OfScientific.ofScientific m s e)⟩

end Double

/-! ## Message types -/

/-- Time stamp of `builtin_interfaces/msg/Time`. -/
structure Time where
  sec : Int
  nanosec : Nat
deriving DecidableEq

/-- Header of `std_msgs/msg/Header`. -/
structure Header where
  stamp : Time
  frame_id : String
deriving DecidableEq

/-- Position of `geometry_msgs/msg/Point`. -/
structure Point where
  x : Double
  y : Double
  z : Double
deriving DecidableEq

/-- Orientation of `geometry_msgs/msg/Quaternion`. -/
structure Quaternion where
  x : Double
  y : Double
  z : Double
  w : Double
deriving DecidableEq

/-- Pose of `geometry_msgs/msg/Pose`. -/
structure Pose where
  position : Point
  orientation : Quaternion
deriving DecidableEq

/-- Message `geometry_msgs/msg/PoseStamped`. -/
structure PoseStamped where
  header : Header
  pose : Pose
deriving DecidableEq

/-- Message part `geometry_msgs/msg/PoseWithCovariance`; `covariance` is the
`std::array<double, 36>` holding the row-major 6x6 matrix. -/
structure PoseWithCovariance where
  pose : Pose
  covariance : List Double
deriving DecidableEq

/-- Message `geometry_msgs/msg/PoseWithCovarianceStamped`. -/
structure PoseWithCovarianceStamped where
  header : Header
  pose : PoseWithCovariance
deriving DecidableEq

/-- Message `tier4_debug_msgs/msg/Float32Stamped`. -/
structure Float32Stamped where
  stamp : Time
  data : Float32
deriving DecidableEq

/-- Message `std_msgs/msg/String`. -/
structure StringMsg where
  data : String
deriving DecidableEq

/-- Message `sensor_msgs/msg/Joy`; `buttons` is a vector of `int32`. -/
structure Joy where
  header : Header
  axes : List Float32
  buttons : List Int
deriving DecidableEq

/-- Value of a default-constructed `Header`.  The message types are declared by the
middleware, outside the repository; their constructors fill every numeric field
with the default of the message definition and every string with "". -/
def Header.ctor : Header := { stamp := { sec := 0, nanosec := 0 }, frame_id := "" }

/-- Value of a default-constructed `Pose`: zero position, and the rotation
(0, 0, 0, 1) that the message definition of `Quaternion` gives as default. -/
def Pose.ctor : Pose :=
  { position := { x := 0, y := 0, z := 0 },
    orientation := { x := 0, y := 0, z := 0, w := 1 } }

/-- Value of a default-constructed `PoseStamped`. -/
def PoseStamped.ctor : PoseStamped := { header := Header.ctor, pose := Pose.ctor }

/-- Value of a default-constructed `PoseWithCovarianceStamped`, the local
`pose_msg` of `publish_random_initial_pose` before its assignments: the 36 entries
of the covariance array are zero. -/
def PoseWithCovarianceStamped.ctor : PoseWithCovarianceStamped :=
  { header := Header.ctor,
    pose := { pose := Pose.ctor, covariance := List.replicate 36 0 } }

/-! ## Node state and environment -/

/-- One `RCLCPP_INFO` line: the format string it comes from and its arguments. -/
inductive LogLine where
  | received_ekf_pose (x y : Double)
  | received_score (score : Double)
  | received_authority (data : String)
  | dmp_activated
  | tsukuba_activated
  | button_pressed (button_index : Nat)
  | waiting_for_dmp
  | published_initial_pose (x y : Double)
deriving DecidableEq

/-- What the node reads from outside the repository: the constant `RAND_MAX`, the
successive results of `std::rand()` and the successive results of `this->now()`. -/
structure Env where
  RAND_MAX : Nat
  rand : Nat → Nat
  now : Nat → Time

/-- The state of an `InitialPosePublisher`: its member variables, followed by the
record of its calls to the outside. -/
structure NodeState where
  last_ekf_pose_ : PoseStamped
  score_ : Float32
  min_offset_ : Double
  max_offset_ : Double
  dmp_received_ : Bool
  rand_calls : Nat
  now_calls : Nat
  published : List PoseWithCovarianceStamped
  shutdown_requests : Nat
  log : List LogLine
deriving DecidableEq

/-- Failure of a callback. -/
inductive Fault where
  | index_out_of_range
deriving DecidableEq

/-- The constructor `InitialPosePublisher()`: initialiser list, then the three
assignments to the position of `last_ekf_pose_`. -/
def InitialPosePublisher : NodeState :=
  let last_ekf_pose_ := PoseStamped.ctor
  let last_ekf_pose_ := { last_ekf_pose_ with pose.position.x := 0 }
  let last_ekf_pose_ := { last_ekf_pose_ with pose.position.y := 0 }
  let last_ekf_pose_ := { last_ekf_pose_ with pose.position.z := 0 }
  { last_ekf_pose_ := last_ekf_pose_,
    score_ := 0,
    min_offset_ := -2,
    max_offset_ := 2,
    dmp_received_ := false,
    rand_calls := 0,
    now_calls := 0,
    published := [],
    shutdown_requests := 0,
    log := [] }

/-! ## Callbacks -/

/-- The call `RCLCPP_INFO(this->get_logger(), ...)`. -/
def RCLCPP_INFO (s : NodeState) (line : LogLine) : NodeState :=
  { s with log := s.log ++ [line] }

/-- The method `ekf_pose_callback`. -/
def ekf_pose_callback (s : NodeState) (msg : PoseStamped) : NodeState :=
  let s := { s with last_ekf_pose_ := msg }
  RCLCPP_INFO s (LogLine.received_ekf_pose msg.pose.position.x msg.pose.position.y)

/-- The method `score_callback`. -/
def score_callback (s : NodeState) (msg : Float32Stamped) : NodeState :=
  let s := { s with score_ := msg.data }
  RCLCPP_INFO s (LogLine.received_score s.score_)

/-- The method `generate_random_offset`: one call of `std::rand()`, then
`min + static_cast<double>(rand) / (RAND_MAX / (max - min))` in `double`
arithmetic, the `int` `RAND_MAX` being converted to `double` for the division. -/
def generate_random_offset (env : Env) (s : NodeState) (min max : Double) :
    Double × NodeState :=
  let r := env.rand s.rand_calls
  let s := { s with rand_calls := s.rand_calls + 1 }
  (min + Double.of_nat r / (Double.of_nat env.RAND_MAX / (max - min)), s)

/-- The method `publish_random_initial_pose`. -/
def publish_random_initial_pose (env : Env) (s : NodeState) : NodeState :=
  let pose_msg := PoseWithCovarianceStamped.ctor
  let stamp := env.now s.now_calls
  let s := { s with now_calls := s.now_calls + 1 }
  let pose_msg := { pose_msg with header.stamp := stamp }
  let pose_msg := { pose_msg with header.frame_id := "map" }
  let (dx, s) := generate_random_offset env s s.min_offset_ s.max_offset_
  let pose_msg := { pose_msg with pose.pose.position.x := s.last_ekf_pose_.pose.position.x + dx }
  let (dy, s) := generate_random_offset env s s.min_offset_ s.max_offset_
  let pose_msg := { pose_msg with pose.pose.position.y := s.last_ekf_pose_.pose.position.y + dy }
  let pose_msg := { pose_msg with pose.pose.position.z := 0 }
  let pose_msg := { pose_msg with pose.pose.orientation := s.last_ekf_pose_.pose.orientation }
  let pose_msg := { pose_msg with pose.covariance := pose_msg.pose.covariance.set 0 0.25 }
  let pose_msg := { pose_msg with pose.covariance := pose_msg.pose.covariance.set 7 0.25 }
  let pose_msg :=
    { pose_msg with pose.covariance := pose_msg.pose.covariance.set 35 0.06853891909122467 }
  let s := { s with published := s.published ++ [pose_msg] }
  RCLCPP_INFO s
    (LogLine.published_initial_pose pose_msg.pose.pose.position.x pose_msg.pose.pose.position.y)

/-- The method `authority_callback`. -/
def authority_callback (env : Env) (s : NodeState) (msg : StringMsg) : NodeState :=
  let data := msg.data
  let s := RCLCPP_INFO s (LogLine.received_authority data)
  if data = "DMP" then
    let s := { s with dmp_received_ := true }
    RCLCPP_INFO s LogLine.dmp_activated
  else if data = "TSUKUBA" ∧ s.dmp_received_ = true then
    let s := RCLCPP_INFO s LogLine.tsukuba_activated
    publish_random_initial_pose env s
  else
    s

/-- The read `v[i]` of a `std::vector`: a fault outside the vector. -/
def vector_at (v : List Int) (i : Nat) : Except Fault Int :=
  match v[i]? with
  | some b => Except.ok b
  | none => Except.error Fault.index_out_of_range

/-- The method `joy_callback`.  The right operand of `&&` is evaluated only when
the left one holds. -/
def joy_callback (s : NodeState) (msg : Joy) : Except Fault NodeState :=
  let button_index : Nat := 1
  if button_index < msg.buttons.length then do
    let b ← vector_at msg.buttons button_index
    if b = 1 then
      let s := RCLCPP_INFO s (LogLine.button_pressed button_index)
      pure { s with shutdown_requests := s.shutdown_requests + 1 }
    else
      pure s
  else
    pure s

/-- The method `publish_initial_pose`, bound to the 5 s wall timer. -/
def publish_initial_pose (s : NodeState) : NodeState :=
  if !s.dmp_received_ then
    RCLCPP_INFO s LogLine.waiting_for_dmp
  else
    s

/-! ## Delivery of inputs -/

/-- One input delivered to the node: a message on one of the four subscriptions,
or a tick of the timer. -/
inductive Input where
  | ekf_pose (msg : PoseStamped)
  | score (msg : Float32Stamped)
  | authority (msg : StringMsg)
  | joy (msg : Joy)
  | timer
deriving DecidableEq

/-- Whether an input is a score update. -/
def Input.is_score : Input → Bool
  | Input.score _ => true
  | _ => false

/-- The callback bound to each input by the constructor. -/
def dispatch (env : Env) (s : NodeState) : Input → Except Fault NodeState
  | Input.ekf_pose msg => pure (ekf_pose_callback s msg)
  | Input.score msg => pure (score_callback s msg)
  | Input.authority msg => pure (authority_callback env s msg)
  | Input.joy msg => joy_callback s msg
  | Input.timer => pure (publish_initial_pose s)

/-- The node run over a finite sequence of inputs, one callback to completion
after the other, starting in state `s`. -/
def spin (env : Env) (s : NodeState) : List Input → Except Fault NodeState
  | [] => pure s
  | i :: rest =>
    match dispatch env s i with
    | Except.ok s1 => spin env s1 rest
    | Except.error e => Except.error e

/-! ## Sample data -/

/-- A sample environment: the `RAND_MAX` of glibc, draws taken from a linear
congruential sequence reduced below 2^31, and a clock that advances one second per
reading. -/
def sample_env : Env :=
  { RAND_MAX := 2147483647,
    rand := fun n => (1103515245 * n + 12345) % 2147483648,
    now := fun n => { sec := n, nanosec := 0 } }

/-- An environment whose generator always returns `RAND_MAX`, the largest draw. -/
def largest_draw_env : Env :=
  { RAND_MAX := 2147483647,
    rand := fun _ => 2147483647,
    now := fun n => { sec := n, nanosec := 0 } }

/-- A pose update at (0.1, 0.1), the `double` nearest to one tenth. -/
def tenth_pose : PoseStamped :=
  { header := { stamp := { sec := 7, nanosec := 0 }, frame_id := "map" },
    pose := { position := { x := 0.1, y := 0.1, z := 0 },
              orientation := { x := 0, y := 0, z := 0, w := 1 } } }

/-- A pose update whose x and y are NaN. -/
def nan_pose : PoseStamped :=
  { header := { stamp := { sec := 7, nanosec := 0 }, frame_id := "map" },
    pose := { position := { x := Double.nan, y := Double.nan, z := 0 },
              orientation := { x := 0, y := 0, z := 0, w := 1 } } }

/-- A sample pose update at (10, 5), height 3, heading turned by half a turn. -/
def sample_pose : PoseStamped :=
  { header := { stamp := { sec := 7, nanosec := 0 }, frame_id := "map" },
    pose := { position := { x := 10, y := 5, z := 3 },
              orientation := { x := 0, y := 0, z := 1, w := 0 } } }

/-! ## Rounding to binary64 is monotone and exact on values of binary64 -/

theorem floor_le_round_half_even (q : ℚ) : ⌊q⌋ ≤ round_half_even q := by
  unfold round_half_even
  split_ifs <;> omega

theorem round_half_even_le_floor_add_one (q : ℚ) : round_half_even q ≤ ⌊q⌋ + 1 := by
  unfold round_half_even
  split_ifs <;> omega

theorem round_half_even_intCast (m : ℤ) : round_half_even (m : ℚ) = m := by
  unfold round_half_even
  simp

theorem round_half_even_mono {a b : ℚ} (h : a ≤ b) :
    round_half_even a ≤ round_half_even b := by
  have hf : ⌊a⌋ ≤ ⌊b⌋ := Int.floor_mono h
  rcases lt_or_eq_of_le hf with hlt | heq
  · calc round_half_even a ≤ ⌊a⌋ + 1 := round_half_even_le_floor_add_one a
      _ ≤ ⌊b⌋ := hlt
      _ ≤ round_half_even b := floor_le_round_half_even b
  · unfold round_half_even
    rw [heq]
    split_ifs <;> first | omega | (exfalso; linarith)

theorem round_half_even_natCast (n : ℕ) : round_half_even (n : ℚ) = n := by
  have := round_half_even_intCast (n : ℤ)
  simpa using this

theorem two_zpow_pos (e : ℤ) : (0 : ℚ) < 2 ^ e := zpow_pos (by norm_num) e

theorem round_magnitude_le_pow (a : ℚ) :
    round_magnitude a ≤ 2 ^ (max (Int.log 2 a) (-1022) + 1) := by
  unfold round_magnitude
  set e := max (Int.log 2 a) (-1022) with he
  have hu : (0 : ℚ) < 2 ^ (e - 52) := two_zpow_pos _
  have h1 : a < 2 ^ (e + 1) := by
    have hlt : a < (2 : ℚ) ^ (Int.log 2 a + 1) := by
      have := Int.lt_zpow_succ_log_self (b := 2) (by norm_num) a
      exact_mod_cast this
    have hle : Int.log 2 a + 1 ≤ e + 1 := by
      have := le_max_left (Int.log 2 a) (-1022)
      omega
    exact lt_of_lt_of_le hlt (zpow_le_zpow_right₀ (by norm_num : (1 : ℚ) ≤ 2) hle)
  have h2 : a / 2 ^ (e - 52) ≤ ((2 ^ 53 : ℕ) : ℚ) := by
    rw [div_le_iff₀ hu]
    have : ((2 ^ 53 : ℕ) : ℚ) * 2 ^ (e - 52) = 2 ^ (e + 1) := by
      have : e + 1 = 53 + (e - 52) := by ring
      rw [this, zpow_add₀ (by norm_num)]
      norm_num
    rw [this]
    exact le_of_lt h1
  have h3 := round_half_even_mono h2
  rw [round_half_even_natCast] at h3
  have h4 : ((round_half_even (a / 2 ^ (e - 52)) : ℤ) : ℚ) ≤ ((2 ^ 53 : ℕ) : ℚ) := by
    exact_mod_cast h3
  calc ((round_half_even (a / 2 ^ (e - 52)) : ℤ) : ℚ) * 2 ^ (e - 52)
      ≤ ((2 ^ 53 : ℕ) : ℚ) * 2 ^ (e - 52) := mul_le_mul_of_nonneg_right h4 (le_of_lt hu)
    _ = 2 ^ (e + 1) := by
      have : e + 1 = 53 + (e - 52) := by ring
      rw [this, zpow_add₀ (by norm_num)]
      norm_num

theorem pow_le_round_magnitude {b : ℚ} (hb : 0 < b) (hl : -1022 ≤ Int.log 2 b) :
    2 ^ (Int.log 2 b) ≤ round_magnitude b := by
  unfold round_magnitude
  rw [max_eq_left hl]
  set e := Int.log 2 b with he
  have hu : (0 : ℚ) < 2 ^ (e - 52) := two_zpow_pos _
  have h1 : (2 : ℚ) ^ e ≤ b := by
    have := Int.zpow_log_le_self (b := 2) (by norm_num) hb
    exact_mod_cast this
  have hpow : ((2 ^ 52 : ℕ) : ℚ) * 2 ^ (e - 52) = 2 ^ e := by
    have : e = 52 + (e - 52) := by ring
    conv_rhs => rw [this, zpow_add₀ (by norm_num : (2 : ℚ) ≠ 0)]
    norm_num
  have h2 : ((2 ^ 52 : ℕ) : ℚ) ≤ b / 2 ^ (e - 52) := by
    rw [le_div_iff₀ hu, hpow]
    exact h1
  have h3 := round_half_even_mono h2
  rw [round_half_even_natCast] at h3
  have h4 : ((2 ^ 52 : ℕ) : ℚ) ≤ ((round_half_even (b / 2 ^ (e - 52)) : ℤ) : ℚ) := by
    exact_mod_cast h3
  calc (2 : ℚ) ^ e = ((2 ^ 52 : ℕ) : ℚ) * 2 ^ (e - 52) := hpow.symm
    _ ≤ _ := mul_le_mul_of_nonneg_right h4 (le_of_lt hu)

theorem round_magnitude_mono {a b : ℚ} (ha : 0 < a) (h : a ≤ b) :
    round_magnitude a ≤ round_magnitude b := by
  have hb : 0 < b := lt_of_lt_of_le ha h
  have hlog : Int.log 2 a ≤ Int.log 2 b := Int.log_mono_right ha h
  have hle : max (Int.log 2 a) (-1022) ≤ max (Int.log 2 b) (-1022) :=
    max_le_max hlog le_rfl
  rcases lt_or_eq_of_le hle with hlt | heq
  · have hl : -1022 ≤ Int.log 2 b := by
      by_contra hc
      rw [max_eq_right (by omega : Int.log 2 b ≤ -1022)] at hlt
      have := le_max_right (Int.log 2 a) (-1022)
      omega
    have hb2 : max (Int.log 2 b) (-1022) = Int.log 2 b := max_eq_left hl
    calc round_magnitude a ≤ 2 ^ (max (Int.log 2 a) (-1022) + 1) := round_magnitude_le_pow a
      _ ≤ 2 ^ (Int.log 2 b) := by
        apply zpow_le_zpow_right₀ (by norm_num : (1 : ℚ) ≤ 2)
        omega
      _ ≤ round_magnitude b := pow_le_round_magnitude hb hl
  · unfold round_magnitude
    rw [heq]
    have hu : (0 : ℚ) < 2 ^ (max (Int.log 2 b) (-1022) - 52) := two_zpow_pos _
    apply mul_le_mul_of_nonneg_right _ (le_of_lt hu)
    have : a / 2 ^ (max (Int.log 2 b) (-1022) - 52) ≤ b / 2 ^ (max (Int.log 2 b) (-1022) - 52) :=
      div_le_div_of_nonneg_right h (le_of_lt hu)
    exact_mod_cast round_half_even_mono this

theorem round_magnitude_nonneg {a : ℚ} (ha : 0 ≤ a) : 0 ≤ round_magnitude a := by
  unfold round_magnitude
  have hu : (0 : ℚ) < 2 ^ (max (Int.log 2 a) (-1022) - 52) := two_zpow_pos _
  apply mul_nonneg _ (le_of_lt hu)
  have h0 : (0 : ℚ) ≤ a / 2 ^ (max (Int.log 2 a) (-1022) - 52) := div_nonneg ha (le_of_lt hu)
  have := round_half_even_mono h0
  rw [show (0 : ℚ) = ((0 : ℤ) : ℚ) by simp, round_half_even_intCast] at this
  exact_mod_cast this

namespace Double

theorem round_nearest_of_pos {q : ℚ} (hq : 0 < q) :
    round_nearest q =
      if (2 : ℚ) ^ (1024 : ℕ) ≤ round_magnitude q then pos_inf
      else finite (round_magnitude q) := by
  unfold round_nearest
  rw [if_neg (ne_of_gt hq), abs_of_pos hq]
  have hn : ¬ q < 0 := not_lt.mpr (le_of_lt hq)
  simp only [hn, decide_False, signed_inf, signed_zero, if_false, Bool.false_eq_true]
  split_ifs with h1 h2
  · rfl
  · rw [h2]
  · rfl

theorem round_nearest_of_neg {q : ℚ} (hq : q < 0) :
    round_nearest q =
      if (2 : ℚ) ^ (1024 : ℕ) ≤ round_magnitude (-q) then neg_inf
      else if round_magnitude (-q) = 0 then neg_zero
      else finite (-round_magnitude (-q)) := by
  unfold round_nearest
  rw [if_neg (ne_of_lt hq), abs_of_neg hq]
  simp only [hq, decide_True, signed_inf, signed_zero, if_true]

theorem round_nearest_zero : round_nearest 0 = finite 0 := by
  unfold round_nearest
  rw [if_pos rfl]

theorem round_nearest_ne_nan (q : ℚ) : round_nearest q ≠ nan := by
  unfold round_nearest signed_inf signed_zero
  split_ifs <;> simp

theorem zero_le_round_nearest {q : ℚ} (hq : 0 ≤ q) : le (finite 0) (round_nearest q) = true := by
  rcases eq_or_lt_of_le hq with h | h
  · rw [← h, round_nearest_zero]
    simp [le, value]
  · rw [round_nearest_of_pos h]
    split_ifs
    · rfl
    · simpa [le, value] using round_magnitude_nonneg hq

theorem round_nearest_le_zero {q : ℚ} (hq : q ≤ 0) : le (round_nearest q) (finite 0) = true := by
  rcases eq_or_lt_of_le hq with h | h
  · rw [h, round_nearest_zero]
    simp [le, value]
  · rw [round_nearest_of_neg h]
    have := round_magnitude_nonneg (a := -q) (by linarith)
    split_ifs
    · rfl
    · simp [le, value]
    · simpa [le, value] using this

theorem le_trans_finite {a b : Double} {c : ℚ} (h1 : le a (finite c) = true)
    (h2 : le (finite c) b = true) : le a b = true := by
  cases a <;> cases b <;> simp [le, value] at h1 h2 ⊢ <;> linarith

theorem round_nearest_mono {a b : ℚ} (h : a ≤ b) :
    le (round_nearest a) (round_nearest b) = true := by
  rcases lt_trichotomy 0 a with ha | ha | ha
  · have hb : 0 < b := lt_of_lt_of_le ha h
    have hm := round_magnitude_mono ha h
    rw [round_nearest_of_pos ha, round_nearest_of_pos hb]
    split_ifs with h1 h2 h2
    · rfl
    · exact absurd (le_trans h1 hm) h2
    · rfl
    · simpa [le, value] using hm
  · subst ha
    exact zero_le_round_nearest h
  · rcases le_or_lt 0 b with hb | hb
    · exact le_trans_finite (round_nearest_le_zero (le_of_lt ha)) (zero_le_round_nearest hb)
    · have hm := round_magnitude_mono (a := -b) (b := -a) (by linarith) (by linarith)
      rw [round_nearest_of_neg ha, round_nearest_of_neg hb]
      have hnn := round_magnitude_nonneg (a := -b) (by linarith)
      split_ifs with h1 h2 h3 h4 h5 h6 h7 <;> simp [le, value] <;> linarith

theorem log_eq_of_bounds {q : ℚ} {e : ℤ} (h1 : (2 : ℚ) ^ e ≤ q) (h2 : q < (2 : ℚ) ^ (e + 1)) :
    Int.log 2 q = e := by
  have hq : 0 < q := lt_of_lt_of_le (two_zpow_pos e) h1
  have a1 : e ≤ Int.log 2 q :=
    (Int.zpow_le_iff_le_log (b := 2) (by norm_num) hq).mp (by exact_mod_cast h1)
  have a2 : Int.log 2 q < e + 1 :=
    (Int.lt_zpow_iff_log_lt (b := 2) (by norm_num) hq).mp (by exact_mod_cast h2)
  omega

/-- Evaluation of the rounding of a positive rational in the normal range, from
its binade and the rounding of its scaled value. -/
theorem round_nearest_eval {q : ℚ} {e m : ℤ} (h1 : (2 : ℚ) ^ e ≤ q)
    (h2 : q < (2 : ℚ) ^ (e + 1)) (he : -1022 ≤ e)
    (hm : round_half_even (q / 2 ^ (e - 52)) = m)
    (hv : (m : ℚ) * 2 ^ (e - 52) < 2 ^ (1024 : ℕ)) :
    round_nearest q = finite ((m : ℚ) * 2 ^ (e - 52)) := by
  have hq : 0 < q := lt_of_lt_of_le (two_zpow_pos e) h1
  have hmag : round_magnitude q = (m : ℚ) * 2 ^ (e - 52) := by
    unfold round_magnitude
    rw [log_eq_of_bounds h1 h2, max_eq_left he, hm]
  rw [round_nearest_of_pos hq, hmag, if_neg (not_le.mpr hv)]

/-- A rational `m * 2 ^ (e - 52)` with a 53-bit `m` and `e` in the exponent range
is a value of binary64: rounding leaves it as it is. -/
theorem round_nearest_exact {q : ℚ} {e : ℤ} {m : ℕ} (hq : q = (m : ℚ) * 2 ^ (e - 52))
    (hm1 : 2 ^ 52 ≤ m) (hm2 : m < 2 ^ 53) (he1 : -1022 ≤ e) (he2 : e ≤ 1023) :
    round_nearest q = finite q := by
  have hu : (0 : ℚ) < 2 ^ (e - 52) := two_zpow_pos _
  have hpow : ∀ k : ℕ, ((2 ^ k : ℕ) : ℚ) * 2 ^ (e - 52) = 2 ^ ((k : ℤ) + (e - 52)) := by
    intro k
    rw [zpow_add₀ (by norm_num : (2 : ℚ) ≠ 0), zpow_natCast]
    norm_num
  have h1 : (2 : ℚ) ^ e ≤ q := by
    rw [hq]
    have := hpow 52
    have e1 : ((52 : ℕ) : ℤ) + (e - 52) = e := by omega
    rw [e1] at this
    rw [← this]
    exact mul_le_mul_of_nonneg_right (by exact_mod_cast hm1) (le_of_lt hu)
  have h2 : q < (2 : ℚ) ^ (e + 1) := by
    rw [hq]
    have := hpow 53
    have e1 : ((53 : ℕ) : ℤ) + (e - 52) = e + 1 := by omega
    rw [e1] at this
    rw [← this]
    exact mul_lt_mul_of_pos_right (by exact_mod_cast hm2) hu
  have hm : round_half_even (q / 2 ^ (e - 52)) = (m : ℤ) := by
    rw [hq, mul_div_assoc, div_self (ne_of_gt hu), mul_one]
    exact round_half_even_natCast m
  have hv : (((m : ℤ) : ℚ)) * 2 ^ (e - 52) < 2 ^ (1024 : ℕ) := by
    have : (((m : ℤ) : ℚ)) * 2 ^ (e - 52) = q := by
      rw [hq]
      norm_num
    rw [this]
    calc q < (2 : ℚ) ^ (e + 1) := h2
      _ ≤ (2 : ℚ) ^ ((1024 : ℕ) : ℤ) :=
        zpow_le_zpow_right₀ (by norm_num) (by omega)
      _ = 2 ^ (1024 : ℕ) := zpow_natCast _ _
  rw [round_nearest_eval h1 h2 he1 hm hv, hq]
  norm_num

theorem round_nearest_neg_exact {q : ℚ} (hq : 0 < q) (h : round_nearest q = finite q) :
    round_nearest (-q) = finite (-q) := by
  rw [round_nearest_of_pos hq] at h
  rw [round_nearest_of_neg (by linarith : -q < 0), neg_neg]
  split_ifs at h with h1
  have hv : round_magnitude q = q := by
    injection h
  rw [if_neg h1, hv, if_neg (ne_of_gt hq)]

theorem round_half_even_eq_of_lt {q : ℚ} {m : ℤ} (h1 : (m : ℚ) - 1 / 2 < q)
    (h2 : q < (m : ℚ) + 1 / 2) : round_half_even q = m := by
  unfold round_half_even
  rcases le_or_lt (m : ℚ) q with h | h
  · have hf : ⌊q⌋ = m := Int.floor_eq_iff.mpr ⟨h, by linarith⟩
    rw [hf, if_pos (by linarith)]
  · have hf : ⌊q⌋ = m - 1 := Int.floor_eq_iff.mpr ⟨by push_cast; linarith, by push_cast; linarith⟩
    rw [hf, if_neg (by push_cast; linarith), if_pos (by push_cast; linarith)]
    ring

/-- A natural number below 2^53, scaled by a power of two within the exponent
range, is a value of binary64. -/
theorem round_nearest_scaled_nat {n : ℕ} (j : ℤ) (h0 : 0 < n) (h : n < 2 ^ 53)
    (hj1 : -1022 ≤ j) (hj2 : j ≤ 960) :
    round_nearest ((n : ℚ) * 2 ^ j) = finite ((n : ℚ) * 2 ^ j) := by
  have hk : Nat.log 2 n < 53 := Nat.log_lt_of_lt_pow (by omega) h
  have hlo : 2 ^ Nat.log 2 n ≤ n := Nat.pow_log_le_self 2 (by omega)
  have hhi : n < 2 ^ (Nat.log 2 n + 1) := Nat.lt_pow_succ_log_self (by norm_num) n
  set k := Nat.log 2 n with hkdef
  apply round_nearest_exact (e := (k : ℤ) + j) (m := n * 2 ^ (52 - k))
  · have e1 : ((k : ℤ) + j - 52) = j - ((52 - k : ℕ) : ℤ) := by omega
    rw [e1, zpow_sub₀ (by norm_num : (2 : ℚ) ≠ 0), zpow_natCast]
    push_cast
    field_simp
    ring
  · calc 2 ^ 52 = 2 ^ k * 2 ^ (52 - k) := by rw [← pow_add]; congr 1; omega
      _ ≤ n * 2 ^ (52 - k) := Nat.mul_le_mul_right _ hlo
  · calc n * 2 ^ (52 - k) < 2 ^ (k + 1) * 2 ^ (52 - k) :=
        Nat.mul_lt_mul_of_pos_right hhi (by positivity)
      _ = 2 ^ 53 := by rw [← pow_add]; congr 1; omega
  · omega
  · omega

theorem of_nat_exact {n : ℕ} (h : n < 2 ^ 53) : of_nat n = finite (n : ℚ) := by
  unfold of_nat
  rcases Nat.eq_zero_or_pos n with h0 | h0
  · subst h0
    simp [round_nearest_zero]
  · have := round_nearest_scaled_nat (n := n) 0 h0 h (by norm_num) (by norm_num)
    simpa using this

theorem round_nearest_natCast {n : ℕ} (h : n < 2 ^ 53) :
    round_nearest (n : ℚ) = finite (n : ℚ) := of_nat_exact h

theorem round_nearest_natCast_div_four {n : ℕ} (h0 : 0 < n) (h : n < 2 ^ 53) :
    round_nearest ((n : ℚ) / 4) = finite ((n : ℚ) / 4) := by
  have := round_nearest_scaled_nat (n := n) (-2) h0 h (by norm_num) (by norm_num)
  have e : (n : ℚ) * 2 ^ (-2 : ℤ) = (n : ℚ) / 4 := by
    rw [zpow_neg]
    norm_num
    ring
  rwa [e] at this

theorem ofNat_zero : (0 : Double) = finite 0 := by
  show round_nearest ((0 : ℕ) : ℚ) = finite 0
  simp [round_nearest_zero]

theorem ofNat_two : (2 : Double) = finite 2 := by
  show round_nearest ((2 : ℕ) : ℚ) = finite 2
  rw [round_nearest_natCast (by norm_num)]
  norm_num

theorem neg_ofNat_two : (-2 : Double) = finite (-2) := by
  show neg (2 : Double) = finite (-2)
  rw [ofNat_two]
  simp [neg]

theorem round_nearest_two : round_nearest 2 = finite 2 := by
  have := round_nearest_natCast (n := 2) (by norm_num)
  simpa using this

theorem round_nearest_four : round_nearest 4 = finite 4 := by
  have := round_nearest_natCast (n := 4) (by norm_num)
  simpa using this

theorem round_nearest_neg_two : round_nearest (-2) = finite (-2) :=
  round_nearest_neg_exact (by norm_num) round_nearest_two

theorem add_finite_finite (a b : ℚ) : add (finite a) (finite b) = round_nearest (a + b) := rfl

theorem two_sub_neg_two : ((2 : Double) - (-2 : Double)) = finite 4 := by
  show add (2 : Double) (neg (-2 : Double)) = finite 4
  rw [neg_ofNat_two, ofNat_two]
  have : neg (finite (-2)) = finite 2 := by simp [neg]
  rw [this, add_finite_finite]
  norm_num
  exact round_nearest_four

theorem le_neg_zero_right (a : Double) : le a neg_zero = le a (finite 0) := by
  cases a <;> simp [le, value]

theorem le_neg_zero_left (a : Double) : le neg_zero a = le (finite 0) a := by
  cases a <;> simp [le, value]

theorem le_self {a : Double} (h : a ≠ nan) : le a a = true := by
  cases a <;> simp [le] at h ⊢

/-- A value between two finite values is finite or the negative zero. -/
theorem between_finite {d : Double} {lo hi : ℚ} (h1 : le (finite lo) d = true)
    (h2 : le d (finite hi) = true) :
    (d = neg_zero ∨ ∃ u, d = finite u) ∧ lo ≤ d.value ∧ d.value ≤ hi := by
  cases d <;> simp [le, value] at h1 h2 ⊢ <;> exact ⟨h1, h2⟩

/-- Addition of binary64 is monotone in its right operand, between finite
bounds: `x + lo ≤ x + d ≤ x + hi` for every `x` other than NaN. -/
theorem add_between {x d : Double} {lo hi : ℚ} (hx : x ≠ nan)
    (h1 : le (finite lo) d = true) (h2 : le d (finite hi) = true) :
    le (add x (finite lo)) (add x d) = true ∧ le (add x d) (add x (finite hi)) = true := by
  obtain ⟨hd, hlo, hhi⟩ := between_finite h1 h2
  have hlo0 : d = neg_zero → lo ≤ 0 := by
    intro h
    rw [h] at hlo
    exact hlo
  have hhi0 : d = neg_zero → 0 ≤ hi := by
    intro h
    rw [h] at hhi
    exact hhi
  cases x with
  | nan => exact absurd rfl hx
  | pos_inf => rcases hd with hd | ⟨u, hd⟩ <;> subst hd <;> exact ⟨rfl, rfl⟩
  | neg_inf => rcases hd with hd | ⟨u, hd⟩ <;> subst hd <;> exact ⟨rfl, rfl⟩
  | finite a =>
    have e1 : add (finite a) d = round_nearest (a + d.value) := by
      rcases hd with hd | ⟨u, hd⟩ <;> subst hd <;> rfl
    rw [e1, add_finite_finite, add_finite_finite]
    exact ⟨round_nearest_mono (by linarith), round_nearest_mono (by linarith)⟩
  | neg_zero =>
    have f1 : ∀ q : ℚ, add neg_zero (finite q) = round_nearest q := by
      intro q
      show round_nearest (0 + q) = round_nearest q
      rw [zero_add]
    rw [f1, f1]
    rcases hd with hd | ⟨u, hd⟩
    · subst hd
      have e2 : add neg_zero neg_zero = neg_zero := rfl
      rw [e2, le_neg_zero_right, le_neg_zero_left]
      exact ⟨round_nearest_le_zero (hlo0 rfl), zero_le_round_nearest (hhi0 rfl)⟩
    · subst hd
      rw [f1]
      exact ⟨round_nearest_mono hlo, round_nearest_mono hhi⟩

theorem lit_quarter : (0.25 : Double) = finite (1 / 4) := by
  show round_nearest (0.25 : ℚ) = finite (1 / 4)
  have h := round_nearest_scaled_nat (n := 1) (-2) (by norm_num) (by norm_num)
    (by norm_num) (by norm_num)
  have e : ((1 : ℕ) : ℚ) * 2 ^ (-2 : ℤ) = 1 / 4 := by norm_num
  rw [e] at h
  have e2 : (0.25 : ℚ) = 1 / 4 := by norm_num
  rw [e2, h]

theorem lit_yaw_variance :
    (0.06853891909122467 : Double) = finite (4599569 / 67108864) := by
  show round_nearest (0.06853891909122467 : ℚ) = finite (4599569 / 67108864)
  have h := round_nearest_eval (q := 0.06853891909122467) (e := -4) (m := 4938749607673856)
    (by norm_num) (by norm_num) (by norm_num)
    (round_half_even_eq_of_lt (by norm_num) (by norm_num)) (by norm_num)
  rw [h]
  norm_num

theorem lit_tenth :
    (0.1 : Double) = finite (3602879701896397 / 36028797018963968) := by
  show round_nearest (0.1 : ℚ) = finite (3602879701896397 / 36028797018963968)
  have h := round_nearest_eval (q := 0.1) (e := -4) (m := 7205759403792794)
    (by norm_num) (by norm_num) (by norm_num)
    (round_half_even_eq_of_lt (by norm_num) (by norm_num)) (by norm_num)
  rw [h]
  norm_num

theorem div_finite_of_nonneg_of_pos {a b : ℚ} (ha : 0 ≤ a) (hb : 0 < b) :
    div (finite a) (finite b) = round_nearest (a / b) := by
  unfold div
  rcases eq_or_lt_of_le ha with h | h
  · subst h
    simp [is_inf, value, ne_of_gt hb, signed_zero, signbit, not_lt.mpr (le_of_lt hb),
      round_nearest_zero]
  · simp [is_inf, value, ne_of_gt hb, ne_of_gt h]

theorem add_def (a b : Double) : a + b = add a b := rfl

theorem sub_def (a b : Double) : a - b = add a (neg b) := rfl

theorem div_def (a b : Double) : a / b = div a b := rfl

theorem le_def (a b : Double) : a ≤ b ↔ le a b = true := Iff.rfl

theorem neg_finite_two : neg (finite 2) = finite (-2) := by
  simp [neg]

/-- The offset `-2 + r / (RAND_MAX / (2 - (-2)))` of binary64, for a draw `r` of at
most `RAND_MAX` and a positive `RAND_MAX` below 2^53, lies between -2 and 2. -/
theorem offset_between {r R : ℕ} (hR : 0 < R) (hR53 : R < 2 ^ 53) (hr : r ≤ R) :
    le (finite (-2)) ((-2 : Double) + of_nat r / (of_nat R / ((2 : Double) - (-2)))) = true ∧
    le ((-2 : Double) + of_nat r / (of_nat R / ((2 : Double) - (-2)))) (finite 2) = true := by
  have hRq : (0 : ℚ) < (R : ℚ) := by exact_mod_cast hR
  have hrq : (r : ℚ) ≤ (R : ℚ) := by exact_mod_cast hr
  have hr0 : (0 : ℚ) ≤ (r : ℚ) := by exact_mod_cast Nat.zero_le r
  have hd : (0 : ℚ) < (R : ℚ) / 4 := by linarith
  rw [two_sub_neg_two, of_nat_exact hR53, of_nat_exact (lt_of_le_of_lt hr hR53), div_def,
    div_def, div_finite_of_nonneg_of_pos (le_of_lt hRq) (by norm_num),
    round_nearest_natCast_div_four hR hR53, div_finite_of_nonneg_of_pos hr0 hd,
    neg_ofNat_two, add_def]
  have hq0 : (0 : ℚ) ≤ (r : ℚ) / ((R : ℚ) / 4) := div_nonneg hr0 (le_of_lt hd)
  have hq4 : (r : ℚ) / ((R : ℚ) / 4) ≤ 4 := by
    rw [div_le_iff₀ hd]
    linarith
  have b1 := zero_le_round_nearest hq0
  have b2 := round_nearest_mono hq4
  rw [round_nearest_four] at b2
  obtain ⟨hcase, hlo, hhi⟩ := between_finite b1 b2
  have e : add (finite (-2)) (round_nearest ((r : ℚ) / ((R : ℚ) / 4))) =
      round_nearest (-2 + (round_nearest ((r : ℚ) / ((R : ℚ) / 4))).value) := by
    rcases hcase with h | ⟨u, h⟩ <;> rw [h] <;> rfl
  rw [e]
  constructor
  · have := round_nearest_mono (a := -2)
      (b := -2 + (round_nearest ((r : ℚ) / ((R : ℚ) / 4))).value) (by linarith)
    rwa [round_nearest_neg_two] at this
  · have := round_nearest_mono
      (a := -2 + (round_nearest ((r : ℚ) / ((R : ℚ) / 4))).value) (b := 2) (by linarith)
    rwa [round_nearest_two] at this

theorem nan_add (d : Double) : add nan d = nan := by
  cases d <;> rfl

theorem nan_le (d : Double) : le nan d = false := by
  cases d <;> rfl

theorem le_nan (d : Double) : le d nan = false := by
  cases d <;> rfl

end Double

/-! ## Auxiliary facts about single callbacks -/

theorem vector_at_eq_ok (v : List Int) (i : Nat) (h : i < v.length) :
    vector_at v i = Except.ok (v.get ⟨i, h⟩) := by
  unfold vector_at
  rw [List.getElem?_eq_getElem h]
  rfl

theorem joy_callback_eq (s : NodeState) (msg : Joy) :
    joy_callback s msg = Except.ok
      (if msg.buttons[1]? = some 1 then
        { RCLCPP_INFO s (LogLine.button_pressed 1) with
          shutdown_requests := s.shutdown_requests + 1 }
      else s) := by
  unfold joy_callback
  by_cases h : 1 < msg.buttons.length
  · simp only [h, if_true]
    rw [vector_at_eq_ok _ _ h]
    rw [List.getElem?_eq_getElem h]
    by_cases hb : msg.buttons.get ⟨1, h⟩ = 1
    · have hb2 : msg.buttons[1] = 1 := hb
      simp [hb, hb2, RCLCPP_INFO, bind, Except.bind, pure, Except.pure] 
    · have hb2 : ¬ msg.buttons[1] = 1 := hb
      simp [hb, hb2, bind, Except.bind, pure, Except.pure] 
  · have h2 : msg.buttons[1]? = none := List.getElem?_eq_none (by omega)
    simp [h, h2, pure, Except.pure]

theorem dispatch_ok (env : Env) (s : NodeState) (i : Input) :
    ∃ s1, dispatch env s i = Except.ok s1 := by
  cases i with
  | joy msg => exact ⟨_, joy_callback_eq s msg⟩
  | _ => exact ⟨_, rfl⟩

theorem spin_cons (env : Env) (s s1 : NodeState) (i : Input) (rest : List Input)
    (h : dispatch env s i = Except.ok s1) :
    spin env s (i :: rest) = spin env s1 rest := by
  simp [spin, h]

theorem publish_random_initial_pose_published (env : Env) (s : NodeState) :
    (publish_random_initial_pose env s).published = s.published ++
      [{ header := { stamp := env.now s.now_calls, frame_id := "map" },
         pose :=
          { pose :=
              { position :=
                  { x := s.last_ekf_pose_.pose.position.x +
                      (s.min_offset_ + Double.of_nat (env.rand s.rand_calls) /
                        (Double.of_nat env.RAND_MAX / (s.max_offset_ - s.min_offset_))),
                    y := s.last_ekf_pose_.pose.position.y +
                      (s.min_offset_ + Double.of_nat (env.rand (s.rand_calls + 1)) /
                        (Double.of_nat env.RAND_MAX / (s.max_offset_ - s.min_offset_))),
                    z := 0 },
                orientation := s.last_ekf_pose_.pose.orientation },
            covariance :=
              (((List.replicate 36 (0 : Double)).set 0 0.25).set 7 0.25).set 35
                0.06853891909122467 } }] := by
  rfl

theorem authority_callback_arm (env : Env) (s : NodeState) (msg : StringMsg)
    (h : msg.data = "DMP") :
    authority_callback env s msg =
      { s with dmp_received_ := true,
               log := s.log ++ [LogLine.received_authority "DMP", LogLine.dmp_activated] } := by
  simp [authority_callback, h, RCLCPP_INFO]

theorem authority_callback_fire (env : Env) (s : NodeState) (msg : StringMsg)
    (h : msg.data = "TSUKUBA") (ha : s.dmp_received_ = true) :
    authority_callback env s msg =
      publish_random_initial_pose env
        { s with log := s.log ++
            [LogLine.received_authority "TSUKUBA", LogLine.tsukuba_activated] } := by
  simp [authority_callback, h, ha, RCLCPP_INFO]

theorem authority_callback_ignored (env : Env) (s : NodeState) (msg : StringMsg)
    (h : msg.data ≠ "DMP") (hu : msg.data = "TSUKUBA" → s.dmp_received_ = false) :
    authority_callback env s msg =
      { s with log := s.log ++ [LogLine.received_authority msg.data] } := by
  unfold authority_callback
  by_cases ht : msg.data = "TSUKUBA"
  · simp [h, ht, hu ht, RCLCPP_INFO]
  · simp [h, ht, RCLCPP_INFO]

theorem dispatch_arm (env : Env) (s s1 : NodeState) (i : Input)
    (h : dispatch env s i = Except.ok s1) :
    s1.dmp_received_ = (s.dmp_received_ || decide (i = Input.authority ⟨"DMP"⟩)) := by
  cases i with
  | ekf_pose msg =>
    simp only [dispatch, pure, Except.pure, Except.ok.injEq] at h
    subst h
    simp [ekf_pose_callback, RCLCPP_INFO]
  | score msg =>
    simp only [dispatch, pure, Except.pure, Except.ok.injEq] at h
    subst h
    simp [score_callback, RCLCPP_INFO]
  | authority msg =>
    simp only [dispatch, pure, Except.pure, Except.ok.injEq] at h
    subst h
    obtain ⟨data⟩ := msg
    unfold authority_callback
    by_cases hd : data = "DMP"
    · simp [hd, RCLCPP_INFO]
    · by_cases ht : data = "TSUKUBA" ∧ s.dmp_received_ = true
      · simp [hd, ht, RCLCPP_INFO, publish_random_initial_pose, generate_random_offset]
      · simp [hd, ht, RCLCPP_INFO]
  | joy msg =>
    rw [dispatch, joy_callback_eq] at h
    simp only [Except.ok.injEq] at h
    subst h
    split <;> simp [RCLCPP_INFO]
  | timer =>
    simp only [dispatch, pure, Except.pure, Except.ok.injEq] at h
    subst h
    unfold publish_initial_pose
    split <;> simp [RCLCPP_INFO]

theorem dispatch_published_of_ne (env : Env) (s s1 : NodeState) (i : Input)
    (h : dispatch env s i = Except.ok s1)
    (hi : i = Input.authority ⟨"TSUKUBA"⟩ → s.dmp_received_ = false) :
    s1.published = s.published := by
  cases i with
  | ekf_pose msg =>
    simp only [dispatch, pure, Except.pure, Except.ok.injEq] at h
    subst h
    rfl
  | score msg =>
    simp only [dispatch, pure, Except.pure, Except.ok.injEq] at h
    subst h
    rfl
  | authority msg =>
    simp only [dispatch, pure, Except.pure, Except.ok.injEq] at h
    subst h
    by_cases hd : msg.data = "DMP"
    · rw [authority_callback_arm env s msg hd]
    · rw [authority_callback_ignored env s msg hd]
      intro ht
      apply hi
      obtain ⟨data⟩ := msg
      simp only at ht
      rw [ht]
  | joy msg =>
    rw [dispatch, joy_callback_eq] at h
    simp only [Except.ok.injEq] at h
    subst h
    split <;> rfl
  | timer =>
    simp only [dispatch, pure, Except.pure, Except.ok.injEq] at h
    subst h
    unfold publish_initial_pose
    split <;> rfl

theorem dispatch_published_fire (env : Env) (s s1 : NodeState)
    (h : dispatch env s (Input.authority ⟨"TSUKUBA"⟩) = Except.ok s1)
    (ha : s.dmp_received_ = true) :
    ∃ msg, s1.published = s.published ++ [msg] := by
  simp only [dispatch, pure, Except.pure, Except.ok.injEq] at h
  subst h
  rw [authority_callback_fire env s _ rfl ha, publish_random_initial_pose_published]
  exact ⟨_, rfl⟩

theorem dispatch_last_ekf_pose (env : Env) (s s1 : NodeState) (i : Input)
    (h : dispatch env s i = Except.ok s1) :
    (∀ msg, i = Input.ekf_pose msg → s1.last_ekf_pose_ = msg) ∧
    ((∀ msg, i ≠ Input.ekf_pose msg) → s1.last_ekf_pose_ = s.last_ekf_pose_) := by
  cases i with
  | ekf_pose msg =>
    simp only [dispatch, pure, Except.pure, Except.ok.injEq] at h
    subst h
    refine ⟨fun m hm => ?_, fun hne => absurd rfl (hne msg)⟩
    cases hm
    rfl
  | score msg =>
    simp only [dispatch, pure, Except.pure, Except.ok.injEq] at h
    subst h
    exact ⟨fun m hm => (by cases hm), fun _ => rfl⟩
  | authority msg =>
    simp only [dispatch, pure, Except.pure, Except.ok.injEq] at h
    subst h
    refine ⟨fun m hm => (by cases hm), fun _ => ?_⟩
    by_cases hd : msg.data = "DMP"
    · rw [authority_callback_arm env s msg hd]
    · by_cases ht : msg.data = "TSUKUBA" ∧ s.dmp_received_ = true
      · rw [authority_callback_fire env s msg ht.1 ht.2]
        rfl
      · rw [authority_callback_ignored env s msg hd (fun h1 => by
          cases hb : s.dmp_received_ with
          | false => rfl
          | true => exact absurd ⟨h1, hb⟩ ht)]
  | joy msg =>
    rw [dispatch, joy_callback_eq] at h
    simp only [Except.ok.injEq] at h
    subst h
    refine ⟨fun m hm => (by cases hm), fun _ => ?_⟩
    split <;> rfl
  | timer =>
    simp only [dispatch, pure, Except.pure, Except.ok.injEq] at h
    subst h
    refine ⟨fun m hm => (by cases hm), fun _ => ?_⟩
    unfold publish_initial_pose
    split <;> rfl

/-! ## Runs that never arm, and runs from an armed state -/

theorem spin_unarmed (env : Env) (inputs : List Input) :
    ∀ s : NodeState, s.dmp_received_ = false → Input.authority ⟨"DMP"⟩ ∉ inputs →
      ∃ s1, spin env s inputs = Except.ok s1 ∧ s1.dmp_received_ = false ∧
        s1.published = s.published := by
  induction inputs with
  | nil => intro s hs _; exact ⟨s, rfl, hs, rfl⟩
  | cons i rest ih =>
    intro s hs hno
    obtain ⟨s1, h1⟩ := dispatch_ok env s i
    have hi : i ≠ Input.authority ⟨"DMP"⟩ := fun h => hno (h ▸ List.mem_cons_self _ _)
    have ha : s1.dmp_received_ = false := by
      rw [dispatch_arm env s s1 i h1, hs]
      simp [hi]
    have hp : s1.published = s.published :=
      dispatch_published_of_ne env s s1 i h1 (fun _ => hs)
    obtain ⟨s2, h2, ha2, hp2⟩ := ih s1 ha (fun h => hno (List.mem_cons_of_mem _ h))
    exact ⟨s2, by rw [spin_cons env s s1 i rest h1, h2], ha2, by rw [hp2, hp]⟩

theorem spin_armed (env : Env) (inputs : List Input) :
    ∀ s : NodeState, s.dmp_received_ = true →
      ∃ s1, spin env s inputs = Except.ok s1 ∧ s1.dmp_received_ = true ∧
        s1.published.length =
          s.published.length + inputs.count (Input.authority ⟨"TSUKUBA"⟩) := by
  induction inputs with
  | nil => intro s hs; exact ⟨s, rfl, hs, rfl⟩
  | cons i rest ih =>
    intro s hs
    obtain ⟨s1, h1⟩ := dispatch_ok env s i
    have ha : s1.dmp_received_ = true := by
      rw [dispatch_arm env s s1 i h1, hs]
      rfl
    obtain ⟨s2, h2, ha2, hp2⟩ := ih s1 ha
    refine ⟨s2, by rw [spin_cons env s s1 i rest h1, h2], ha2, ?_⟩
    rw [hp2]
    by_cases hi : i = Input.authority ⟨"TSUKUBA"⟩
    · subst hi
      obtain ⟨msg, hm⟩ := dispatch_published_fire env s s1 h1 hs
      rw [hm, List.count_cons_self]
      simp
      omega
    · rw [dispatch_published_of_ne env s s1 i h1 (fun h => absurd h hi),
        List.count_cons_of_ne (fun h => hi h.symm)]

theorem spin_append (env : Env) (pre post : List Input) :
    ∀ s s1 : NodeState, spin env s pre = Except.ok s1 →
      spin env s (pre ++ post) = spin env s1 post := by
  induction pre with
  | nil =>
    intro s s1 h
    simp only [spin, pure, Except.pure, Except.ok.injEq] at h
    subst h
    rfl
  | cons i rest ih =>
    intro s s1 h
    obtain ⟨s2, h2⟩ := dispatch_ok env s i
    rw [spin_cons env s s2 i rest h2] at h
    rw [List.cons_append, spin_cons env s s2 i _ h2]
    exact ih s2 s1 h

theorem spin_arm (env : Env) (inputs : List Input) :
    ∀ s : NodeState, ∃ s1, spin env s inputs = Except.ok s1 ∧
      (s1.dmp_received_ = true ↔
        (s.dmp_received_ = true ∨ Input.authority ⟨"DMP"⟩ ∈ inputs)) := by
  induction inputs with
  | nil => intro s; exact ⟨s, rfl, by simp⟩
  | cons i rest ih =>
    intro s
    obtain ⟨s1, h1⟩ := dispatch_ok env s i
    obtain ⟨s2, h2, h3⟩ := ih s1
    refine ⟨s2, by rw [spin_cons env s s1 i rest h1, h2], ?_⟩
    rw [h3, dispatch_arm env s s1 i h1]
    simp only [Bool.or_eq_true, decide_eq_true_eq, List.mem_cons]
    constructor
    · rintro ((h | h) | h)
      · exact Or.inl h
      · exact Or.inr (Or.inl h.symm)
      · exact Or.inr (Or.inr h)
    · rintro (h | h | h)
      · exact Or.inl (Or.inl h)
      · exact Or.inl (Or.inr h.symm)
      · exact Or.inr h

/-! ## The claims on the arm flag and on the number of published poses -/

/-- C1: from the initial state, a sequence of inputs that holds no authority
command equal to "DMP" runs to completion and publishes no randomized pose,
whatever else it holds ("TSUKUBA" commands included). -/
theorem no_pose_published_without_arm (env : Env) (inputs : List Input)
    (h : Input.authority ⟨"DMP"⟩ ∉ inputs) :
    ∃ s, spin env InitialPosePublisher inputs = Except.ok s ∧ s.published = [] := by
  obtain ⟨s, hs, _, hp⟩ := spin_unarmed env inputs InitialPosePublisher rfl h
  exact ⟨s, hs, hp⟩

/-- C7: from the initial state the arm flag is true after a sequence of inputs
exactly when the sequence holds an authority command equal to "DMP"; from an
armed state every sequence of inputs ends in an armed state; and a "DMP"
received while armed leaves the flag true. -/
theorem arm_flag_one_way (env : Env) (inputs : List Input) :
    (∃ s, spin env InitialPosePublisher inputs = Except.ok s ∧
      (s.dmp_received_ = true ↔ Input.authority ⟨"DMP"⟩ ∈ inputs)) ∧
    (∀ s0 : NodeState, s0.dmp_received_ = true →
      ∃ s, spin env s0 inputs = Except.ok s ∧ s.dmp_received_ = true) ∧
    (∀ s0 : NodeState, s0.dmp_received_ = true →
      (authority_callback env s0 ⟨"DMP"⟩).dmp_received_ = true) := by
  refine ⟨?_, ?_, ?_⟩
  · obtain ⟨s, hs, h⟩ := spin_arm env inputs InitialPosePublisher
    refine ⟨s, hs, ?_⟩
    rw [h]
    constructor
    · rintro (h | h)
      · cases h
      · exact h
    · exact Or.inr
  · intro s0 h0
    obtain ⟨s, hs, h⟩ := spin_arm env inputs s0
    exact ⟨s, hs, h.mpr (Or.inl h0)⟩
  · intro s0 _
    rw [authority_callback_arm env s0 _ rfl]

/-- C2: from the initial state, a sequence of inputs without "DMP" publishes
nothing, and a sequence whose first "DMP" is followed by `post` publishes as many
randomized poses as `post` holds "TSUKUBA" commands.  Step by step: an input other
than "TSUKUBA" (pose, score, "DMP" or any other string, controller input, timer
tick), in any state, leaves the published messages as they are, and a "TSUKUBA"
in an armed state appends exactly one message. -/
theorem published_count_eq_armed_triggers (env : Env) (inputs : List Input) :
    (∃ s, spin env InitialPosePublisher inputs = Except.ok s ∧
      (Input.authority ⟨"DMP"⟩ ∉ inputs → s.published.length = 0) ∧
      (∀ pre post, inputs = pre ++ Input.authority ⟨"DMP"⟩ :: post →
        Input.authority ⟨"DMP"⟩ ∉ pre →
        s.published.length = post.count (Input.authority ⟨"TSUKUBA"⟩))) ∧
    (∀ (s0 : NodeState) (i : Input), i ≠ Input.authority ⟨"TSUKUBA"⟩ →
      ∃ s1, dispatch env s0 i = Except.ok s1 ∧ s1.published = s0.published) ∧
    (∀ s0 : NodeState, s0.dmp_received_ = true →
      ∃ s1 msg, dispatch env s0 (Input.authority ⟨"TSUKUBA"⟩) = Except.ok s1 ∧
        s1.published = s0.published ++ [msg]) := by
  refine ⟨?_, ?_, ?_⟩
  · obtain ⟨s, hs, _⟩ := spin_arm env inputs InitialPosePublisher
    refine ⟨s, hs, ?_, ?_⟩
    · intro hno
      obtain ⟨s1, hs1, _, hp⟩ := spin_unarmed env inputs InitialPosePublisher rfl hno
      rw [hs] at hs1
      cases hs1
      rw [hp]
      rfl
    · intro pre post hsplit hpre
      obtain ⟨s1, hs1, ha1, hp1⟩ := spin_unarmed env pre InitialPosePublisher rfl hpre
      obtain ⟨s2, hs2⟩ := dispatch_ok env s1 (Input.authority ⟨"DMP"⟩)
      have ha2 : s2.dmp_received_ = true := by
        rw [dispatch_arm env s1 s2 _ hs2]
        simp
      have hp2 : s2.published = s1.published :=
        dispatch_published_of_ne env s1 s2 _ hs2 (fun h => absurd h (by decide))
      obtain ⟨s3, hs3, _, hp3⟩ := spin_armed env post s2 ha2
      have hrun : spin env InitialPosePublisher inputs = Except.ok s3 := by
        rw [hsplit, spin_append env pre _ _ s1 hs1, spin_cons env s1 s2 _ post hs2, hs3]
      rw [hs] at hrun
      cases hrun
      rw [hp3, hp2, hp1]
      simp [InitialPosePublisher]
  · intro s0 i hi
    obtain ⟨s1, h1⟩ := dispatch_ok env s0 i
    exact ⟨s1, h1, dispatch_published_of_ne env s0 s1 i h1 (fun h => absurd h hi)⟩
  · intro s0 h0
    obtain ⟨s1, h1⟩ := dispatch_ok env s0 (Input.authority ⟨"TSUKUBA"⟩)
    obtain ⟨msg, hm⟩ := dispatch_published_fire env s0 s1 h1 h0
    exact ⟨s1, msg, h1, hm⟩

/-! ## The stored pose -/

theorem spin_last_ekf_pose (env : Env) (inputs : List Input) :
    ∀ s : NodeState, ∃ s1, spin env s inputs = Except.ok s1 ∧
      (∀ before msg after, inputs = before ++ Input.ekf_pose msg :: after →
        (∀ m, Input.ekf_pose m ∉ after) → s1.last_ekf_pose_ = msg) ∧
      ((∀ m, Input.ekf_pose m ∉ inputs) → s1.last_ekf_pose_ = s.last_ekf_pose_) := by
  induction inputs with
  | nil =>
    intro s
    refine ⟨s, rfl, ?_, fun _ => rfl⟩
    intro before msg after h
    cases before <;> cases h
  | cons i rest ih =>
    intro s
    obtain ⟨s1, h1⟩ := dispatch_ok env s i
    obtain ⟨hset, hkeep⟩ := dispatch_last_ekf_pose env s s1 i h1
    obtain ⟨s2, h2, hlast, hnone⟩ := ih s1
    refine ⟨s2, by rw [spin_cons env s s1 i rest h1, h2], ?_, ?_⟩
    · intro before msg after hsplit hafter
      cases before with
      | nil =>
        rw [List.nil_append] at hsplit
        injection hsplit with hi hrest
        subst hrest
        rw [hnone hafter]
        exact hset msg hi
      | cons b before1 =>
        rw [List.cons_append] at hsplit
        injection hsplit with _ hrest
        exact hlast before1 msg after hrest hafter
    · intro hno
      rw [hnone (fun m hm => hno m (List.mem_cons_of_mem _ hm))]
      exact hkeep (fun m hm => hno m (hm ▸ List.mem_cons_self _ _))

/-- C8: from the initial state, after a sequence of inputs the stored pose is the
whole message of the last pose update of the sequence, and its position is the
origin (0, 0, 0) when the sequence holds no pose update; an input that is not a
pose update, in any state (a "TSUKUBA" that emits a randomized pose included),
leaves the stored pose as it is. -/
theorem stored_pose_last_write_wins (env : Env) (inputs : List Input) :
    (∃ s, spin env InitialPosePublisher inputs = Except.ok s ∧
      (∀ before msg after, inputs = before ++ Input.ekf_pose msg :: after →
        (∀ m, Input.ekf_pose m ∉ after) → s.last_ekf_pose_ = msg) ∧
      ((∀ m, Input.ekf_pose m ∉ inputs) →
        s.last_ekf_pose_.pose.position = { x := 0, y := 0, z := 0 })) ∧
    (∀ (s0 : NodeState) (i : Input), (∀ m, i ≠ Input.ekf_pose m) →
      ∃ s1, dispatch env s0 i = Except.ok s1 ∧ s1.last_ekf_pose_ = s0.last_ekf_pose_) := by
  constructor
  · obtain ⟨s, hs, hlast, hnone⟩ := spin_last_ekf_pose env inputs InitialPosePublisher
    refine ⟨s, hs, hlast, fun hno => ?_⟩
    rw [hnone hno]
    rfl
  · intro s0 i hi
    obtain ⟨s1, h1⟩ := dispatch_ok env s0 i
    exact ⟨s1, h1, (dispatch_last_ekf_pose env s0 s1 i h1).2 hi⟩

/-! ## Ignored authority commands -/

/-- C9: an authority command that is not "DMP", and that is not "TSUKUBA" unless
the arm flag is false, runs without fault and changes nothing but the log, which
gains the one line reporting the received string: pose, score, arm flag, published
messages and shutdown requests are as before.  A "TSUKUBA" received unarmed is
not kept: the "DMP" that follows it publishes nothing. -/
theorem ignored_authority_command_is_noop (env : Env) (s : NodeState) (msg : StringMsg)
    (h : msg.data ≠ "DMP") (hu : msg.data = "TSUKUBA" → s.dmp_received_ = false) :
    dispatch env s (Input.authority msg) =
      Except.ok { s with log := s.log ++ [LogLine.received_authority msg.data] } ∧
    (s.dmp_received_ = false →
      ∃ s1, spin env s [Input.authority ⟨"TSUKUBA"⟩, Input.authority ⟨"DMP"⟩] =
        Except.ok s1 ∧ s1.published = s.published ∧ s1.dmp_received_ = true) := by
  constructor
  · show Except.ok (authority_callback env s msg) = _
    rw [authority_callback_ignored env s msg h hu]
  · intro hs
    refine ⟨_, rfl, ?_, ?_⟩
    · rw [authority_callback_arm env _ _ rfl,
        authority_callback_ignored env s _ (by decide) (fun _ => hs)]
    · rw [authority_callback_arm env _ _ rfl]

/-! ## The controller input -/

/-- C6: `joy_callback` never faults: it returns a state whose count of shutdown
requests is one more than before when the button vector has more than one element
and its element at index 1 equals 1 (pressed), and is the count before otherwise,
whatever the other elements; the pose, score, arm flag and published messages are
as before.  A vector of fewer than 2 elements requests no shutdown, although the
read at index 1 alone would be outside such a vector. -/
theorem joy_callback_shutdown (s : NodeState) (msg : Joy) :
    ∃ s1, joy_callback s msg = Except.ok s1 ∧
      s1.shutdown_requests = s.shutdown_requests +
        (if 1 < msg.buttons.length ∧ msg.buttons[1]? = some 1 then 1 else 0) ∧
      (msg.buttons.length < 2 → s1 = s ∧
        vector_at msg.buttons 1 = Except.error Fault.index_out_of_range) ∧
      (∀ b0 rest, msg.buttons = b0 :: 1 :: rest →
        s1.shutdown_requests = s.shutdown_requests + 1) ∧
      s1.last_ekf_pose_ = s.last_ekf_pose_ ∧ s1.score_ = s.score_ ∧
      s1.dmp_received_ = s.dmp_received_ ∧ s1.published = s.published := by
  refine ⟨_, joy_callback_eq s msg, ?_, ?_, ?_, ?_⟩
  · by_cases hb : msg.buttons[1]? = some 1
    · have hl : 1 < msg.buttons.length := by
        by_contra hl
        rw [List.getElem?_eq_none (by omega)] at hb
        cases hb
      simp [hb, hl]
    · simp [hb]
  · intro hl
    have hn : msg.buttons[1]? = none := List.getElem?_eq_none (by omega)
    constructor
    · simp [hn]
    · simp [vector_at, hn]
  · intro b0 rest hb
    simp [hb]
  · split <;> exact ⟨rfl, rfl, rfl, rfl⟩

/-! ## The emitted message -/

theorem dispatch_offsets (env : Env) (s s1 : NodeState) (i : Input)
    (h : dispatch env s i = Except.ok s1) :
    s1.min_offset_ = s.min_offset_ ∧ s1.max_offset_ = s.max_offset_ := by
  cases i with
  | ekf_pose msg =>
    simp only [dispatch, pure, Except.pure, Except.ok.injEq] at h
    subst h
    exact ⟨rfl, rfl⟩
  | score msg =>
    simp only [dispatch, pure, Except.pure, Except.ok.injEq] at h
    subst h
    exact ⟨rfl, rfl⟩
  | authority msg =>
    simp only [dispatch, pure, Except.pure, Except.ok.injEq] at h
    subst h
    unfold authority_callback
    by_cases hd : msg.data = "DMP"
    · simp [hd, RCLCPP_INFO]
    · by_cases ht : msg.data = "TSUKUBA" ∧ s.dmp_received_ = true
      · simp [hd, ht, RCLCPP_INFO, publish_random_initial_pose, generate_random_offset]
      · simp [hd, ht, RCLCPP_INFO]
  | joy msg =>
    rw [dispatch, joy_callback_eq] at h
    simp only [Except.ok.injEq] at h
    subst h
    split <;> exact ⟨rfl, rfl⟩
  | timer =>
    simp only [dispatch, pure, Except.pure, Except.ok.injEq] at h
    subst h
    unfold publish_initial_pose
    split <;> exact ⟨rfl, rfl⟩

theorem spin_offsets (env : Env) (inputs : List Input) :
    ∀ s : NodeState, ∃ s1, spin env s inputs = Except.ok s1 ∧
      s1.min_offset_ = s.min_offset_ ∧ s1.max_offset_ = s.max_offset_ := by
  induction inputs with
  | nil => intro s; exact ⟨s, rfl, rfl, rfl⟩
  | cons i rest ih =>
    intro s
    obtain ⟨s1, h1⟩ := dispatch_ok env s i
    obtain ⟨hmin, hmax⟩ := dispatch_offsets env s s1 i h1
    obtain ⟨s2, h2, hmin2, hmax2⟩ := ih s1
    exact ⟨s2, by rw [spin_cons env s s1 i rest h1, h2], by rw [hmin2, hmin],
      by rw [hmax2, hmax]⟩

/-- C3, as the code has it: let `RAND_MAX` be positive and below 2^53 (it is an
`int`) and every draw of the generator at most `RAND_MAX`.  In a state with the
default offset range (-2, 2), `publish_random_initial_pose` appends one message
whose x is the `double` sum of the stored x and the offset
`-2 + r1 / (RAND_MAX / (2 - (-2)))`, whose y is the `double` sum of the stored y and
the same offset in the next draw `r2`, both offsets computed in `double` and lying
in [-2, 2].  When the stored x is not NaN, the emitted x lies between the `double`
differences and sums `stored x - 2.0` and `stored x + 2.0`, and the same for y;
when the stored x (or y) is NaN, so is the emitted x (or y).  Every state reached
from the initial state has the default offset range.  A pose update at (10, 5),
then "DMP", then "TSUKUBA", from the initial state, publishes one pose with x in
[8, 12], y in [3, 7] and z = 0. -/
theorem emitted_position_within_rounded_offset_range (env : Env)
    (hR : 0 < env.RAND_MAX) (hR53 : env.RAND_MAX < 2 ^ 53)
    (hr : ∀ n, env.rand n ≤ env.RAND_MAX) :
    (∀ s : NodeState, s.min_offset_ = -2 → s.max_offset_ = 2 →
      ∃ msg dx dy,
        (publish_random_initial_pose env s).published = s.published ++ [msg] ∧
        dx = -2 + Double.of_nat (env.rand s.rand_calls) /
          (Double.of_nat env.RAND_MAX / (2 - (-2))) ∧
        dy = -2 + Double.of_nat (env.rand (s.rand_calls + 1)) /
          (Double.of_nat env.RAND_MAX / (2 - (-2))) ∧
        -2 ≤ dx ∧ dx ≤ 2 ∧ -2 ≤ dy ∧ dy ≤ 2 ∧
        msg.pose.pose.position.x = s.last_ekf_pose_.pose.position.x + dx ∧
        msg.pose.pose.position.y = s.last_ekf_pose_.pose.position.y + dy ∧
        (s.last_ekf_pose_.pose.position.x ≠ Double.nan →
          s.last_ekf_pose_.pose.position.x - 2 ≤ msg.pose.pose.position.x ∧
          msg.pose.pose.position.x ≤ s.last_ekf_pose_.pose.position.x + 2) ∧
        (s.last_ekf_pose_.pose.position.y ≠ Double.nan →
          s.last_ekf_pose_.pose.position.y - 2 ≤ msg.pose.pose.position.y ∧
          msg.pose.pose.position.y ≤ s.last_ekf_pose_.pose.position.y + 2) ∧
        (s.last_ekf_pose_.pose.position.x = Double.nan →
          msg.pose.pose.position.x = Double.nan) ∧
        (s.last_ekf_pose_.pose.position.y = Double.nan →
          msg.pose.pose.position.y = Double.nan)) ∧
    (∀ inputs, ∃ s, spin env InitialPosePublisher inputs = Except.ok s ∧
      s.min_offset_ = -2 ∧ s.max_offset_ = 2) ∧
    (∀ p : PoseStamped, p.pose.position.x = 10 → p.pose.position.y = 5 →
      ∃ s msg, spin env InitialPosePublisher
          [Input.ekf_pose p, Input.authority ⟨"DMP"⟩, Input.authority ⟨"TSUKUBA"⟩] =
          Except.ok s ∧ s.published = [msg] ∧
        8 ≤ msg.pose.pose.position.x ∧ msg.pose.pose.position.x ≤ 12 ∧
        3 ≤ msg.pose.pose.position.y ∧ msg.pose.pose.position.y ≤ 7 ∧
        msg.pose.pose.position.z = 0) := by
  have hoff : ∀ k, Double.le (Double.finite (-2))
        (-2 + Double.of_nat (env.rand k) / (Double.of_nat env.RAND_MAX / (2 - (-2)))) = true ∧
      Double.le (-2 + Double.of_nat (env.rand k) / (Double.of_nat env.RAND_MAX / (2 - (-2))))
        (Double.finite 2) = true :=
    fun k => Double.offset_between hR hR53 (hr k)
  have hsum : ∀ x d : Double, Double.le (Double.finite (-2)) d = true →
      Double.le d (Double.finite 2) = true →
      (x ≠ Double.nan → x - 2 ≤ x + d ∧ x + d ≤ x + 2) ∧ (x = Double.nan → x + d = Double.nan) := by
    intro x d h1 h2
    constructor
    · intro hx
      have := Double.add_between hx h1 h2
      rw [Double.sub_def, Double.ofNat_two, Double.neg_finite_two, Double.le_def, Double.le_def,
        Double.add_def, Double.add_def]
      exact this
    · intro hx
      rw [hx, Double.add_def, Double.nan_add]
  have key : ∀ s : NodeState, s.min_offset_ = -2 → s.max_offset_ = 2 →
      ∃ msg dx dy,
        (publish_random_initial_pose env s).published = s.published ++ [msg] ∧
        dx = -2 + Double.of_nat (env.rand s.rand_calls) /
          (Double.of_nat env.RAND_MAX / (2 - (-2))) ∧
        dy = -2 + Double.of_nat (env.rand (s.rand_calls + 1)) /
          (Double.of_nat env.RAND_MAX / (2 - (-2))) ∧
        -2 ≤ dx ∧ dx ≤ 2 ∧ -2 ≤ dy ∧ dy ≤ 2 ∧
        msg.pose.pose.position.x = s.last_ekf_pose_.pose.position.x + dx ∧
        msg.pose.pose.position.y = s.last_ekf_pose_.pose.position.y + dy ∧
        (s.last_ekf_pose_.pose.position.x ≠ Double.nan →
          s.last_ekf_pose_.pose.position.x - 2 ≤ msg.pose.pose.position.x ∧
          msg.pose.pose.position.x ≤ s.last_ekf_pose_.pose.position.x + 2) ∧
        (s.last_ekf_pose_.pose.position.y ≠ Double.nan →
          s.last_ekf_pose_.pose.position.y - 2 ≤ msg.pose.pose.position.y ∧
          msg.pose.pose.position.y ≤ s.last_ekf_pose_.pose.position.y + 2) ∧
        (s.last_ekf_pose_.pose.position.x = Double.nan →
          msg.pose.pose.position.x = Double.nan) ∧
        (s.last_ekf_pose_.pose.position.y = Double.nan →
          msg.pose.pose.position.y = Double.nan) ∧
        msg.pose.pose.position.z = 0 := by
    intro s hmin hmax
    obtain ⟨hx1, hx2⟩ := hoff s.rand_calls
    obtain ⟨hy1, hy2⟩ := hoff (s.rand_calls + 1)
    have hpub := publish_random_initial_pose_published env s
    rw [hmin, hmax] at hpub
    refine ⟨_, _, _, hpub, rfl, rfl, ?_, ?_, ?_, ?_, rfl, rfl,
      (hsum _ _ hx1 hx2).1, (hsum _ _ hy1 hy2).1, (hsum _ _ hx1 hx2).2,
      (hsum _ _ hy1 hy2).2, rfl⟩
    · have h := hx1
      rw [← Double.neg_ofNat_two] at h
      exact h
    · have h := hx2
      rw [← Double.ofNat_two] at h
      exact h
    · have h := hy1
      rw [← Double.neg_ofNat_two] at h
      exact h
    · have h := hy2
      rw [← Double.ofNat_two] at h
      exact h
  refine ⟨?_, ?_, ?_⟩
  · intro s hmin hmax
    obtain ⟨msg, dx, dy, h1, h2, h3, h4, h5, h6, h7, h8, h9, h10, h11, h12, h13, _⟩ :=
      key s hmin hmax
    exact ⟨msg, dx, dy, h1, h2, h3, h4, h5, h6, h7, h8, h9, h10, h11, h12, h13⟩
  · intro inputs
    obtain ⟨s, hs, hmin, hmax⟩ := spin_offsets env inputs InitialPosePublisher
    exact ⟨s, hs, by rw [hmin]; rfl, by rw [hmax]; rfl⟩
  · intro p hx hy
    obtain ⟨msg, dx, dy, h1, _, _, _, _, _, _, _, _, h10, h11, _, _, h14⟩ := key
      { (authority_callback env (ekf_pose_callback InitialPosePublisher p) ⟨"DMP"⟩) with
        log := (authority_callback env (ekf_pose_callback InitialPosePublisher p) ⟨"DMP"⟩).log
          ++ [LogLine.received_authority "TSUKUBA", LogLine.tsukuba_activated] } rfl rfl
    have ex : (ekf_pose_callback InitialPosePublisher p).last_ekf_pose_ = p := rfl
    simp only [authority_callback_arm env _ ⟨"DMP"⟩ rfl, ex, hx, hy] at h10 h11
    have n10 : (10 : Double) = Double.finite 10 :=
      (Double.round_nearest_natCast (n := 10) (by norm_num)).trans (by norm_num)
    have n5 : (5 : Double) = Double.finite 5 :=
      (Double.round_nearest_natCast (n := 5) (by norm_num)).trans (by norm_num)
    have n8 : (8 : Double) = Double.finite 8 :=
      (Double.round_nearest_natCast (n := 8) (by norm_num)).trans (by norm_num)
    have n12 : (12 : Double) = Double.finite 12 :=
      (Double.round_nearest_natCast (n := 12) (by norm_num)).trans (by norm_num)
    have n3 : (3 : Double) = Double.finite 3 :=
      (Double.round_nearest_natCast (n := 3) (by norm_num)).trans (by norm_num)
    have n7 : (7 : Double) = Double.finite 7 :=
      (Double.round_nearest_natCast (n := 7) (by norm_num)).trans (by norm_num)
    have r8 : Double.round_nearest 8 = Double.finite 8 := by
      have := Double.round_nearest_natCast (n := 8) (by norm_num)
      simpa using this
    have r12 : Double.round_nearest 12 = Double.finite 12 := by
      have := Double.round_nearest_natCast (n := 12) (by norm_num)
      simpa using this
    have r3 : Double.round_nearest 3 = Double.finite 3 := by
      have := Double.round_nearest_natCast (n := 3) (by norm_num)
      simpa using this
    have r7 : Double.round_nearest 7 = Double.finite 7 := by
      have := Double.round_nearest_natCast (n := 7) (by norm_num)
      simpa using this
    have e8 : (10 : Double) - 2 = 8 := by
      rw [Double.sub_def, Double.ofNat_two, Double.neg_finite_two, n10, n8,
        Double.add_finite_finite]
      norm_num
      exact r8
    have e12 : (10 : Double) + 2 = 12 := by
      rw [Double.add_def, Double.ofNat_two, n10, n12, Double.add_finite_finite]
      norm_num
      exact r12
    have e3 : (5 : Double) - 2 = 3 := by
      rw [Double.sub_def, Double.ofNat_two, Double.neg_finite_two, n5, n3,
        Double.add_finite_finite]
      norm_num
      exact r3
    have e7 : (5 : Double) + 2 = 7 := by
      rw [Double.add_def, Double.ofNat_two, n5, n7, Double.add_finite_finite]
      norm_num
      exact r7
    have hx10 : (10 : Double) ≠ Double.nan := by
      rw [n10]
      simp
    have hy5 : (5 : Double) ≠ Double.nan := by
      rw [n5]
      simp
    have bx := h10 hx10
    have bY := h11 hy5
    rw [e8, e12] at bx
    rw [e3, e7] at bY
    exact ⟨_, msg, rfl, h1, bx.1, bx.2, bY.1, bY.2, h14⟩

/-- C3 does not hold of the code as the claim states it.  With the largest draw
`RAND_MAX`, a pose update at x = 0.1 (the `double` 3602879701896397 / 2^55), then
"DMP", then "TSUKUBA", from the initial state, publish a pose whose x is the
`double` 4728779608739021 / 2^51, which is more than the stored x plus 2; and a pose
update whose x is NaN makes the emitted x NaN, which lies in no interval. -/
theorem emitted_position_exceeds_exact_range :
    (∃ s msg, spin largest_draw_env InitialPosePublisher
        [Input.ekf_pose tenth_pose, Input.authority ⟨"DMP"⟩, Input.authority ⟨"TSUKUBA"⟩] =
        Except.ok s ∧ s.published = [msg] ∧
      s.last_ekf_pose_.pose.position.x =
        Double.finite (3602879701896397 / 36028797018963968) ∧
      msg.pose.pose.position.x = Double.finite (4728779608739021 / 2251799813685248) ∧
      ¬ (msg.pose.pose.position.x.value ≤ s.last_ekf_pose_.pose.position.x.value + 2)) ∧
    (∃ s msg, spin largest_draw_env InitialPosePublisher
        [Input.ekf_pose nan_pose, Input.authority ⟨"DMP"⟩, Input.authority ⟨"TSUKUBA"⟩] =
        Except.ok s ∧ s.published = [msg] ∧
      s.last_ekf_pose_.pose.position.x = Double.nan ∧
      msg.pose.pose.position.x = Double.nan ∧
      ¬ (s.last_ekf_pose_.pose.position.x - 2 ≤ msg.pose.pose.position.x) ∧
      ¬ (msg.pose.pose.position.x ≤ s.last_ekf_pose_.pose.position.x + 2)) := by
  have hoff : (-2 : Double) + Double.of_nat 2147483647 /
      (Double.of_nat 2147483647 / ((2 : Double) - (-2))) = Double.finite 2 := by
    rw [Double.two_sub_neg_two, Double.of_nat_exact (by norm_num), Double.div_def,
      Double.div_def, Double.div_finite_of_nonneg_of_pos (by norm_num) (by norm_num),
      Double.round_nearest_natCast_div_four (by norm_num) (by norm_num),
      Double.div_finite_of_nonneg_of_pos (by norm_num) (by norm_num),
      Double.neg_ofNat_two, Double.add_def]
    have e4 : ((2147483647 : ℕ) : ℚ) / (((2147483647 : ℕ) : ℚ) / 4) = 4 := by norm_num
    rw [e4, Double.round_nearest_four, Double.add_finite_finite]
    norm_num
    exact Double.round_nearest_two
  have hsum : Double.finite (3602879701896397 / 36028797018963968) + Double.finite 2 =
      Double.finite (4728779608739021 / 2251799813685248) := by
    rw [Double.add_def, Double.add_finite_finite]
    have h := Double.round_nearest_eval
      (q := 3602879701896397 / 36028797018963968 + 2) (e := 1) (m := 4728779608739021)
      (by norm_num) (by norm_num) (by norm_num)
      (Double.round_half_even_eq_of_lt (by norm_num) (by norm_num)) (by norm_num)
    rw [h]
    norm_num
  constructor
  · refine ⟨_, _, rfl, publish_random_initial_pose_published _ _, Double.lit_tenth, ?_, ?_⟩
    · show (0.1 : Double) + ((-2 : Double) + Double.of_nat 2147483647 /
        (Double.of_nat 2147483647 / ((2 : Double) - (-2)))) = _
      rw [hoff, Double.lit_tenth, hsum]
    · show ¬ (((0.1 : Double) + ((-2 : Double) + Double.of_nat 2147483647 /
        (Double.of_nat 2147483647 / ((2 : Double) - (-2))))).value ≤ (0.1 : Double).value + 2)
      rw [hoff, Double.lit_tenth, hsum]
      simp only [Double.value]
      norm_num
  · refine ⟨_, _, rfl, publish_random_initial_pose_published _ _, rfl, ?_, ?_, ?_⟩
    · show Double.add Double.nan _ = Double.nan
      exact Double.nan_add _
    · show ¬ (Double.le (Double.add Double.nan _) (Double.add Double.nan _) = true)
      rw [Double.nan_add, Double.nan_le]
      simp
    · show ¬ (Double.le (Double.add Double.nan _) (Double.add Double.nan _) = true)
      rw [Double.nan_add, Double.nan_le]
      simp

theorem dispatch_published_cases (env : Env) (s s1 : NodeState) (i : Input)
    (h : dispatch env s i = Except.ok s1) :
    s1.published = s.published ∨
      ∃ s0 : NodeState, s0.published = s.published ∧
        s1.published = (publish_random_initial_pose env s0).published := by
  by_cases hi : i = Input.authority ⟨"TSUKUBA"⟩ ∧ s.dmp_received_ = true
  · obtain ⟨hi, ha⟩ := hi
    subst hi
    simp only [dispatch, pure, Except.pure, Except.ok.injEq] at h
    subst h
    rw [authority_callback_fire env s _ rfl ha]
    exact Or.inr ⟨_, rfl, rfl⟩
  · left
    apply dispatch_published_of_ne env s s1 i h
    intro h1
    cases hb : s.dmp_received_ with
    | false => rfl
    | true => exact absurd ⟨h1, hb⟩ hi

theorem spin_published_forall (env : Env) (P : PoseWithCovarianceStamped → Prop)
    (hP : ∀ s : NodeState, ∃ msg,
      (publish_random_initial_pose env s).published = s.published ++ [msg] ∧ P msg)
    (inputs : List Input) :
    ∀ s : NodeState, (∀ m ∈ s.published, P m) →
      ∃ s1, spin env s inputs = Except.ok s1 ∧ ∀ m ∈ s1.published, P m := by
  induction inputs with
  | nil => intro s hs; exact ⟨s, rfl, hs⟩
  | cons i rest ih =>
    intro s hs
    obtain ⟨s1, h1⟩ := dispatch_ok env s i
    have hs1 : ∀ m ∈ s1.published, P m := by
      rcases dispatch_published_cases env s s1 i h1 with hp | ⟨s0, hp0, hp⟩
      · rw [hp]
        exact hs
      · obtain ⟨msg, hmsg, hPm⟩ := hP s0
        rw [hp, hmsg, hp0]
        intro m hm
        rcases List.mem_append.mp hm with hm | hm
        · exact hs m hm
        · rw [List.mem_singleton.mp hm]
          exact hPm
    obtain ⟨s2, h2, hs2⟩ := ih s1 hs1
    exact ⟨s2, by rw [spin_cons env s s1 i rest h1, h2], hs2⟩

/-- C4: in every state and for every generator, `publish_random_initial_pose`
appends one message with position.z = 0, the orientation of the stored pose and
frame id "map"; two generators give messages that agree on the three; and every
message published in a run from the initial state has z = 0 and frame id "map". -/
theorem emitted_pose_fixed_fields (env : Env) (s : NodeState) :
    (∃ msg, (publish_random_initial_pose env s).published = s.published ++ [msg] ∧
      msg.pose.pose.position.z = 0 ∧
      msg.pose.pose.orientation = s.last_ekf_pose_.pose.orientation ∧
      msg.header.frame_id = "map") ∧
    (∀ env2 : Env, ∃ msg msg2,
      (publish_random_initial_pose env s).published = s.published ++ [msg] ∧
      (publish_random_initial_pose env2 s).published = s.published ++ [msg2] ∧
      msg2.pose.pose.position.z = msg.pose.pose.position.z ∧
      msg2.pose.pose.orientation = msg.pose.pose.orientation ∧
      msg2.header.frame_id = msg.header.frame_id) ∧
    (∀ inputs, ∃ s1, spin env InitialPosePublisher inputs = Except.ok s1 ∧
      ∀ m ∈ s1.published, m.pose.pose.position.z = 0 ∧ m.header.frame_id = "map") := by
  refine ⟨⟨_, publish_random_initial_pose_published env s, rfl, rfl, rfl⟩, ?_, ?_⟩
  · intro env2
    exact ⟨_, _, publish_random_initial_pose_published env s,
      publish_random_initial_pose_published env2 s, rfl, rfl, rfl⟩
  · intro inputs
    apply spin_published_forall env
      (fun m => m.pose.pose.position.z = 0 ∧ m.header.frame_id = "map")
    · intro s0
      exact ⟨_, publish_random_initial_pose_published env s0, rfl, rfl⟩
    · intro m hm
      cases hm

/-- C5: the covariance of the message appended by `publish_random_initial_pose`
has 36 entries; index 0 holds 0.25, index 7 holds 0.25, index 35 holds
0.06853891909122467, every other index holds 0, and exactly three entries are not
zero.  Every message published in a run from the initial state has this
covariance.  The literals are values of `double`: 0.25 is 1/4, 0 is the positive
zero and 0.06853891909122467 is 4599569 / 2^26. -/
theorem emitted_covariance (env : Env) (s : NodeState) :
    (∃ msg, (publish_random_initial_pose env s).published = s.published ++ [msg] ∧
      msg.pose.covariance.length = 36 ∧
      msg.pose.covariance[0]? = some (0.25 : Double) ∧
      msg.pose.covariance[7]? = some (0.25 : Double) ∧
      msg.pose.covariance[35]? = some (0.06853891909122467 : Double) ∧
      (∀ i, i < 36 → i ≠ 0 → i ≠ 7 → i ≠ 35 → msg.pose.covariance[i]? = some (0 : Double)) ∧
      (msg.pose.covariance.filter (fun c => decide (c ≠ 0))).length = 3) ∧
    (∀ inputs, ∃ s1, spin env InitialPosePublisher inputs = Except.ok s1 ∧
      ∀ m ∈ s1.published, m.pose.covariance =
        (((List.replicate 36 (0 : Double)).set 0 0.25).set 7 0.25).set 35
          0.06853891909122467) ∧
    ((0.25 : Double) = Double.finite (1 / 4) ∧ (0 : Double) = Double.finite 0 ∧
      (0.06853891909122467 : Double) = Double.finite (4599569 / 67108864)) := by
  refine ⟨?_, ?_, Double.lit_quarter, Double.ofNat_zero, Double.lit_yaw_variance⟩
  · refine ⟨_, publish_random_initial_pose_published env s, ?_, ?_, ?_, ?_, ?_, ?_⟩
    · simp
    · simp
    · simp
    · simp
    · intro i hi h0 h7 h35
      interval_cases i <;> simp at h0 h7 h35 ⊢
    · simp only [Double.lit_quarter, Double.lit_yaw_variance, Double.ofNat_zero]
      simp [List.replicate, List.filter]
  · intro inputs
    apply spin_published_forall env
      (fun m => m.pose.covariance =
        (((List.replicate 36 (0 : Double)).set 0 0.25).set 7 0.25).set 35 0.06853891909122467)
    · intro s0
      exact ⟨_, publish_random_initial_pose_published env s0, rfl⟩
    · intro m hm
      cases hm

/-! ## Independence from the score -/

theorem dispatch_score_blind (env : Env) (s t s1 t1 : NodeState) (i : Input)
    (hs : dispatch env s i = Except.ok s1) (ht : dispatch env t i = Except.ok t1)
    (h : { s with score_ := 0, log := [] } = { t with score_ := 0, log := [] }) :
    { s1 with score_ := 0, log := [] } = { t1 with score_ := 0, log := [] } := by
  obtain ⟨p, sc, mn, mx, d, rc, nc, pub, sh, lg⟩ := s
  obtain ⟨p2, sc2, mn2, mx2, d2, rc2, nc2, pub2, sh2, lg2⟩ := t
  simp only [NodeState.mk.injEq, and_true, true_and] at h
  obtain ⟨h1, h2, h3, h4, h5, h6, h7, h8⟩ := h
  subst h1 h2 h3 h4 h5 h6 h7 h8
  cases i with
  | ekf_pose msg =>
    simp only [dispatch, pure, Except.pure, Except.ok.injEq] at hs ht
    subst hs ht
    rfl
  | score msg =>
    simp only [dispatch, pure, Except.pure, Except.ok.injEq] at hs ht
    subst hs ht
    rfl
  | authority msg =>
    simp only [dispatch, pure, Except.pure, Except.ok.injEq] at hs ht
    subst hs ht
    unfold authority_callback
    by_cases hd : msg.data = "DMP"
    · simp [hd, RCLCPP_INFO]
    · by_cases hf : msg.data = "TSUKUBA" ∧ d = true
      · simp [hd, hf, RCLCPP_INFO, publish_random_initial_pose, generate_random_offset]
      · simp [hd, hf, RCLCPP_INFO]
  | joy msg =>
    rw [dispatch, joy_callback_eq] at hs ht
    simp only [Except.ok.injEq] at hs ht
    subst hs ht
    split <;> rfl
  | timer =>
    simp only [dispatch, pure, Except.pure, Except.ok.injEq] at hs ht
    subst hs ht
    unfold publish_initial_pose
    split <;> rfl

theorem spin_score_blind (env : Env) (inputs : List Input) :
    ∀ s t : NodeState,
      { s with score_ := 0, log := [] } = { t with score_ := 0, log := [] } →
      ∃ s1 t1, spin env s inputs = Except.ok s1 ∧
        spin env t (inputs.filter (fun i => !i.is_score)) = Except.ok t1 ∧
        { s1 with score_ := 0, log := [] } = { t1 with score_ := 0, log := [] } := by
  induction inputs with
  | nil => intro s t h; exact ⟨s, t, rfl, rfl, h⟩
  | cons i rest ih =>
    intro s t h
    obtain ⟨s1, hs1⟩ := dispatch_ok env s i
    cases hi : i.is_score with
    | true =>
      have h1 : { s1 with score_ := 0, log := [] } = { t with score_ := 0, log := [] } := by
        cases i with
        | score msg =>
          simp only [dispatch, pure, Except.pure, Except.ok.injEq] at hs1
          subst hs1
          rw [← h]
          rfl
        | _ => cases hi
      obtain ⟨s2, t2, hs2, ht2, h2⟩ := ih s1 t h1
      refine ⟨s2, t2, by rw [spin_cons env s s1 i rest hs1, hs2], ?_, h2⟩
      rw [List.filter_cons_of_neg (by simp [hi])]
      exact ht2
    | false =>
      obtain ⟨t1, ht1⟩ := dispatch_ok env t i
      have h1 := dispatch_score_blind env s t s1 t1 i hs1 ht1 h
      obtain ⟨s2, t2, hs2, ht2, h2⟩ := ih s1 t1 h1
      refine ⟨s2, t2, by rw [spin_cons env s s1 i rest hs1, hs2], ?_, h2⟩
      rw [List.filter_cons_of_pos (by simp [hi]), spin_cons env t t1 i _ ht1]
      exact ht2

/-- C10: a score update runs without fault and changes only the stored score,
which becomes the value received, and the log; and two sequences of inputs that
are equal once their score updates are removed, run from the initial state with
the same generator and clock, end with the same published messages, the same
number of shutdown requests, the same stored pose and the same arm flag. -/
theorem score_never_influences_emission (env : Env) (l1 l2 : List Input)
    (h : l1.filter (fun i => !i.is_score) = l2.filter (fun i => !i.is_score)) :
    (∃ s1 s2, spin env InitialPosePublisher l1 = Except.ok s1 ∧
      spin env InitialPosePublisher l2 = Except.ok s2 ∧
      s1.published = s2.published ∧
      s1.shutdown_requests = s2.shutdown_requests ∧
      s1.last_ekf_pose_ = s2.last_ekf_pose_ ∧
      s1.dmp_received_ = s2.dmp_received_) ∧
    (∀ (s : NodeState) (msg : Float32Stamped),
      dispatch env s (Input.score msg) = Except.ok
        { s with score_ := msg.data,
                 log := s.log ++ [LogLine.received_score msg.data] }) := by
  constructor
  · obtain ⟨s1, t1, hs1, ht1, h1⟩ :=
      spin_score_blind env l1 InitialPosePublisher InitialPosePublisher rfl
    obtain ⟨s2, t2, hs2, ht2, h2⟩ :=
      spin_score_blind env l2 InitialPosePublisher InitialPosePublisher rfl
    rw [h, ht2] at ht1
    cases ht1
    have h12 := h1.trans h2.symm
    simp only [NodeState.mk.injEq, and_true, true_and] at h12
    obtain ⟨e1, _, _, e4, _, _, e7, e8⟩ := h12
    exact ⟨s1, s2, hs1, hs2, e7, e8, e1, e4⟩
  · intro s msg
    rfl

/-! ## The claims at concrete inputs -/

/-- C1 at a concrete sequence: three "TSUKUBA" commands, a lower-case "dmp", a pose
update, a timer tick and a pressed controller button, without "DMP", publish
nothing. -/
theorem no_pose_published_without_arm_witness :
    Input.authority ⟨"DMP"⟩ ∉
        [Input.authority ⟨"TSUKUBA"⟩, Input.ekf_pose sample_pose, Input.authority ⟨"dmp"⟩,
          Input.authority ⟨"TSUKUBA"⟩, Input.timer,
          Input.joy { header := Header.ctor, axes := [], buttons := [0, 1] },
          Input.authority ⟨"TSUKUBA"⟩] ∧
      ∃ s, spin sample_env InitialPosePublisher
        [Input.authority ⟨"TSUKUBA"⟩, Input.ekf_pose sample_pose, Input.authority ⟨"dmp"⟩,
          Input.authority ⟨"TSUKUBA"⟩, Input.timer,
          Input.joy { header := Header.ctor, axes := [], buttons := [0, 1] },
          Input.authority ⟨"TSUKUBA"⟩] = Except.ok s ∧ s.published = [] :=
  ⟨by decide, no_pose_published_without_arm sample_env _ (by decide)⟩

/-- C2 at a concrete sequence: one "TSUKUBA" before the first "DMP" and two after
it publish two poses. -/
theorem published_count_eq_armed_triggers_witness :
    ∃ s, spin sample_env InitialPosePublisher
        [Input.authority ⟨"TSUKUBA"⟩, Input.authority ⟨"DMP"⟩, Input.authority ⟨"TSUKUBA"⟩,
          Input.timer, Input.authority ⟨"DMP"⟩, Input.authority ⟨"TSUKUBA"⟩] = Except.ok s ∧
      s.published.length = 2 :=
  let ⟨s, hs, _, hcount⟩ := (published_count_eq_armed_triggers sample_env
    [Input.authority ⟨"TSUKUBA"⟩, Input.authority ⟨"DMP"⟩, Input.authority ⟨"TSUKUBA"⟩,
      Input.timer, Input.authority ⟨"DMP"⟩, Input.authority ⟨"TSUKUBA"⟩]).1
  ⟨s, hs, (hcount [Input.authority ⟨"TSUKUBA"⟩]
    [Input.authority ⟨"TSUKUBA"⟩, Input.timer, Input.authority ⟨"DMP"⟩,
      Input.authority ⟨"TSUKUBA"⟩] rfl (by decide)).trans (by decide)⟩

/-- C7 at a concrete sequence: after "TSUKUBA", "DMP", a timer tick and "TSUKUBA"
the node is armed. -/
theorem arm_flag_one_way_witness :
    ∃ s, spin sample_env InitialPosePublisher
        [Input.authority ⟨"TSUKUBA"⟩, Input.authority ⟨"DMP"⟩, Input.timer,
          Input.authority ⟨"TSUKUBA"⟩] = Except.ok s ∧ s.dmp_received_ = true :=
  let ⟨s, hs, harm⟩ := (arm_flag_one_way sample_env
    [Input.authority ⟨"TSUKUBA"⟩, Input.authority ⟨"DMP"⟩, Input.timer,
      Input.authority ⟨"TSUKUBA"⟩]).1
  ⟨s, hs, harm.mpr (by decide)⟩

/-- C8 at a concrete sequence: of two pose updates the second is the stored pose,
also after a randomized pose was emitted. -/
theorem stored_pose_last_write_wins_witness :
    ∃ s, spin sample_env InitialPosePublisher
        [Input.ekf_pose PoseStamped.ctor, Input.authority ⟨"DMP"⟩,
          Input.ekf_pose sample_pose, Input.authority ⟨"TSUKUBA"⟩,
          Input.score { stamp := { sec := 0, nanosec := 0 }, data := 3 }] = Except.ok s ∧
      s.last_ekf_pose_ = sample_pose :=
  let ⟨s, hs, hlast, _⟩ := (stored_pose_last_write_wins sample_env
    [Input.ekf_pose PoseStamped.ctor, Input.authority ⟨"DMP"⟩,
      Input.ekf_pose sample_pose, Input.authority ⟨"TSUKUBA"⟩,
      Input.score { stamp := { sec := 0, nanosec := 0 }, data := 3 }]).1
  ⟨s, hs, hlast [Input.ekf_pose PoseStamped.ctor, Input.authority ⟨"DMP"⟩] sample_pose
    [Input.authority ⟨"TSUKUBA"⟩,
      Input.score { stamp := { sec := 0, nanosec := 0 }, data := 3 }] rfl
    (by intro m hm; simp at hm)⟩

/-- C3, as the code has it, at the sample environment: a pose update at (10, 5),
"DMP", "TSUKUBA" publish one pose with x in [8, 12], y in [3, 7], z = 0. -/
theorem emitted_position_within_rounded_offset_range_witness :
    0 < sample_env.RAND_MAX ∧ sample_env.RAND_MAX < 2 ^ 53 ∧
      (∀ n, sample_env.rand n ≤ sample_env.RAND_MAX) ∧
      ∃ s msg, spin sample_env InitialPosePublisher
          [Input.ekf_pose sample_pose, Input.authority ⟨"DMP"⟩,
            Input.authority ⟨"TSUKUBA"⟩] = Except.ok s ∧ s.published = [msg] ∧
        8 ≤ msg.pose.pose.position.x ∧ msg.pose.pose.position.x ≤ 12 ∧
        3 ≤ msg.pose.pose.position.y ∧ msg.pose.pose.position.y ≤ 7 ∧
        msg.pose.pose.position.z = 0 :=
  ⟨by decide, by decide, fun n => Nat.le_of_lt_succ (Nat.mod_lt _ (by decide)),
    (emitted_position_within_rounded_offset_range sample_env (by decide) (by decide)
      (fun n => Nat.le_of_lt_succ (Nat.mod_lt _ (by decide)))).2.2 sample_pose rfl rfl⟩

/-- C9 at concrete inputs: "TSUKUBA" in the initial (unarmed) state and the
lower-case "dmp" in an armed state change nothing but the log. -/
theorem ignored_authority_command_is_noop_witness :
    dispatch sample_env InitialPosePublisher (Input.authority ⟨"TSUKUBA"⟩) =
        Except.ok { InitialPosePublisher with
          log := [LogLine.received_authority "TSUKUBA"] } ∧
      dispatch sample_env { InitialPosePublisher with dmp_received_ := true }
          (Input.authority ⟨"dmp"⟩) =
        Except.ok { InitialPosePublisher with
          dmp_received_ := true, log := [LogLine.received_authority "dmp"] } :=
  ⟨(ignored_authority_command_is_noop sample_env InitialPosePublisher ⟨"TSUKUBA"⟩
      (by decide) (fun _ => rfl)).1,
    (ignored_authority_command_is_noop sample_env
      { InitialPosePublisher with dmp_received_ := true } ⟨"dmp"⟩
      (by decide) (fun h => absurd h (by decide))).1⟩

/-- C10 at concrete sequences: the same pose update, "DMP" and "TSUKUBA", with
different score updates around them, publish the same messages. -/
theorem score_never_influences_emission_witness :
    ∃ s1 s2, spin sample_env InitialPosePublisher
        [Input.score { stamp := { sec := 0, nanosec := 0 }, data := 1 },
          Input.ekf_pose sample_pose, Input.authority ⟨"DMP"⟩,
          Input.score { stamp := { sec := 1, nanosec := 0 }, data := 5 / 2 },
          Input.authority ⟨"TSUKUBA"⟩] = Except.ok s1 ∧
      spin sample_env InitialPosePublisher
        [Input.ekf_pose sample_pose, Input.authority ⟨"DMP"⟩, Input.authority ⟨"TSUKUBA"⟩,
          Input.score { stamp := { sec := 2, nanosec := 0 }, data := 0 }] = Except.ok s2 ∧
      s1.published = s2.published ∧
      s1.shutdown_requests = s2.shutdown_requests ∧
      s1.last_ekf_pose_ = s2.last_ekf_pose_ ∧
      s1.dmp_received_ = s2.dmp_received_ :=
  (score_never_influences_emission sample_env
    [Input.score { stamp := { sec := 0, nanosec := 0 }, data := 1 },
      Input.ekf_pose sample_pose, Input.authority ⟨"DMP"⟩,
      Input.score { stamp := { sec := 1, nanosec := 0 }, data := 5 / 2 },
      Input.authority ⟨"TSUKUBA"⟩]
    [Input.ekf_pose sample_pose, Input.authority ⟨"DMP"⟩, Input.authority ⟨"TSUKUBA"⟩,
      Input.score { stamp := { sec := 2, nanosec := 0 }, data := 0 }] rfl).1

end RandomInitialPose
